import Mathlib

/-!
# Verification of the op-txverify core (Go) against its specification

This file contains a shallow embedding, in Lean 4, of the verification
pipeline of the `op-txverify` repository: the EIP-712 hashing engine
(`core/hashing.go`), the calldata decoder (`ParseTransactionData`,
`parseMulticall`, `parseArguments`), the registries (`core/constants.go`),
and the verification facade (`core/verify.go`), together with theorems
settling the specification claims about them.

Bytes are modelled as `List Nat` (each entry < 256 where it matters),
Go `int` values as `Int` with explicit 64-bit wrapping where overflow can
occur, Go errors as an `Except` monad with a distinguished constructor for
runtime panics, and Go strings as Lean `String`s.
-/

set_option maxRecDepth 200000

set_option maxHeartbeats 2000000

namespace OpTxVerify

/-! ## Byte and hex utilities (mirroring `encoding/hex` and go-ethereum `common`) -/

/-- Value of a single hexadecimal digit, accepting both cases
(mirrors `encoding/hex.fromHexChar`). -/
def hexDigitVal (c : Char) : Option Nat :=
  if '0' ≤ c ∧ c ≤ '9' then some (c.toNat - '0'.toNat)
  else if 'a' ≤ c ∧ c ≤ 'f' then some (c.toNat - 'a'.toNat + 10)
  else if 'A' ≤ c ∧ c ≤ 'F' then some (c.toNat - 'A'.toNat + 10)
  else none

/-- Decode a list of hex characters two at a time, stopping at the first
pair that is not valid hex or at a trailing odd character, and returning
the bytes decoded so far.  This is the behaviour of `encoding/hex.Decode`
when the caller ignores the returned error (as go-ethereum `Hex2Bytes`
does). -/
def hexPairsPartial : List Char → List Nat
  | c1 :: c2 :: rest =>
    match hexDigitVal c1, hexDigitVal c2 with
    | some h, some l => (h * 16 + l) :: hexPairsPartial rest
    | _, _ => []
  | _ => []

/-- Decode a list of hex characters two at a time, failing (like
`hex.DecodeString`) on an odd-length input or any invalid character. -/
def hexPairsStrict : List Char → Option (List Nat)
  | [] => some []
  | c1 :: c2 :: rest =>
    match hexDigitVal c1, hexDigitVal c2 with
    | some h, some l => (hexPairsStrict rest).map (fun bs => (h * 16 + l) :: bs)
    | _, _ => none
  | _ :: [] => none

/-- `hex.DecodeString`: strict full decode of a hex string (no `0x` prefix
handling). -/
def hexDecodeStrict (s : String) : Option (List Nat) :=
  hexPairsStrict s.data

/-- go-ethereum `common.FromHex`: strips an optional `0x`/`0X` prefix,
left-pads an odd-length string with one `0`, then decodes permissively
(invalid suffixes are silently dropped, as `Hex2Bytes` ignores the decode
error). -/
def fromHexGo (s : String) : List Nat :=
  let l := s.data
  let l := match l with
    | '0' :: 'x' :: rest => rest
    | '0' :: 'X' :: rest => rest
    | _ => l
  let l := if l.length % 2 = 1 then '0' :: l else l
  hexPairsPartial l

/-- Lower-case hex digit for a value < 16. -/
def hexDigitChar (n : Nat) : Char :=
  if n < 10 then Char.ofNat ('0'.toNat + n) else Char.ofNat ('a'.toNat + (n - 10))

/-- Hex characters (lower case, two per byte) of a byte list
(`hex.EncodeToString`). -/
def hexChars : List Nat → List Char
  | [] => []
  | b :: bs => hexDigitChar (b / 16 % 16) :: hexDigitChar (b % 16) :: hexChars bs

/-- `hex.EncodeToString`: lower-case hex string of a byte list. -/
def hexEncode (bs : List Nat) : String :=
  ⟨hexChars bs⟩

/-- Big-endian interpretation of a byte list (`big.Int.SetBytes`). -/
def natOfBE : List Nat → Nat
  | [] => 0
  | b :: bs => b % 256 * 256 ^ bs.length + natOfBE bs

/-- Big-endian bytes of `n`, exactly `width` bytes (left-padded with
zeros, higher bytes of an over-wide value dropped). -/
def beBytes (width n : Nat) : List Nat :=
  match width with
  | 0 => []
  | w + 1 => beBytes w (n / 256) ++ [n % 256]

/-- go-ethereum `common.BytesToAddress`: keep the last 20 bytes,
left-padding with zeros when shorter. -/
def bytesToAddress (bs : List Nat) : List Nat :=
  let bs := if bs.length > 20 then bs.drop (bs.length - 20) else bs
  List.replicate (20 - bs.length) 0 ++ bs

/-- go-ethereum `common.BytesToHash`: keep the last 32 bytes, left-padding
with zeros when shorter. -/
def bytesToHash32 (bs : List Nat) : List Nat :=
  let bs := if bs.length > 32 then bs.drop (bs.length - 32) else bs
  List.replicate (32 - bs.length) 0 ++ bs

/-- UTF-8 bytes of a string as Go's `[]byte(s)` produces them; all strings
we hash are ASCII, for which this is the code-point list. -/
def asciiBytes (s : String) : List Nat :=
  s.data.map Char.toNat

/-! ## Keccak-256 (go-ethereum `crypto.Keccak256`)

The legacy Keccak padding (`0x01 … 0x80`), rate 1088 bits.  The state is a
list of 25 lanes of 64 bits, lane `(x, y)` stored at index `x + 5*y`. -/

/-- 64-bit mask. -/
def M64 : Nat := 0xFFFFFFFFFFFFFFFF

/-- Rotate a 64-bit lane left by `k` (0 ≤ k < 64). -/
def rotl64 (n k : Nat) : Nat :=
  ((n <<< k) ||| (n >>> (64 - k))) &&& M64

/-- The 24 round constants of Keccak-f[1600]. -/
def keccakRC : List Nat :=
  [0x1, 0x8082, 0x800000000000808a, 0x8000000080008000,
   0x808b, 0x80000001, 0x8000000080008081, 0x8000000000008009,
   0x8a, 0x88, 0x80008009, 0x8000000a,
   0x8000808b, 0x800000000000008b, 0x8000000000008089, 0x8000000000008003,
   0x8000000000008002, 0x8000000000000080, 0x800a, 0x800000008000000a,
   0x8000000080008081, 0x8000000000008080, 0x80000001, 0x8000000080008008]

/-- One round of Keccak-f[1600] (θ, ρ, π, χ, ι) on the 25-lane state. -/
def keccakRound (rc : Nat) : List Nat → List Nat
  | [a0, a1, a2, a3, a4, a5, a6, a7, a8, a9, a10, a11, a12, a13, a14,
     a15, a16, a17, a18, a19, a20, a21, a22, a23, a24] =>
    let c0 := a0 ^^^ a5 ^^^ a10 ^^^ a15 ^^^ a20
    let c1 := a1 ^^^ a6 ^^^ a11 ^^^ a16 ^^^ a21
    let c2 := a2 ^^^ a7 ^^^ a12 ^^^ a17 ^^^ a22
    let c3 := a3 ^^^ a8 ^^^ a13 ^^^ a18 ^^^ a23
    let c4 := a4 ^^^ a9 ^^^ a14 ^^^ a19 ^^^ a24
    let d0 := c4 ^^^ rotl64 c1 1
    let d1 := c0 ^^^ rotl64 c2 1
    let d2 := c1 ^^^ rotl64 c3 1
    let d3 := c2 ^^^ rotl64 c4 1
    let d4 := c3 ^^^ rotl64 c0 1
    let e0 := a0 ^^^ d0
    let e1 := a1 ^^^ d1
    let e2 := a2 ^^^ d2
    let e3 := a3 ^^^ d3
    let e4 := a4 ^^^ d4
    let e5 := a5 ^^^ d0
    let e6 := a6 ^^^ d1
    let e7 := a7 ^^^ d2
    let e8 := a8 ^^^ d3
    let e9 := a9 ^^^ d4
    let e10 := a10 ^^^ d0
    let e11 := a11 ^^^ d1
    let e12 := a12 ^^^ d2
    let e13 := a13 ^^^ d3
    let e14 := a14 ^^^ d4
    let e15 := a15 ^^^ d0
    let e16 := a16 ^^^ d1
    let e17 := a17 ^^^ d2
    let e18 := a18 ^^^ d3
    let e19 := a19 ^^^ d4
    let e20 := a20 ^^^ d0
    let e21 := a21 ^^^ d1
    let e22 := a22 ^^^ d2
    let e23 := a23 ^^^ d3
    let e24 := a24 ^^^ d4
    -- ρ and π: b[j] collects the rotated source lane mapped to index j
    let b0 := e0
    let b10 := rotl64 e1 1
    let b20 := rotl64 e2 62
    let b5 := rotl64 e3 28
    let b15 := rotl64 e4 27
    let b16 := rotl64 e5 36
    let b1 := rotl64 e6 44
    let b11 := rotl64 e7 6
    let b21 := rotl64 e8 55
    let b6 := rotl64 e9 20
    let b7 := rotl64 e10 3
    let b17 := rotl64 e11 10
    let b2 := rotl64 e12 43
    let b12 := rotl64 e13 25
    let b22 := rotl64 e14 39
    let b23 := rotl64 e15 41
    let b8 := rotl64 e16 45
    let b18 := rotl64 e17 15
    let b3 := rotl64 e18 21
    let b13 := rotl64 e19 8
    let b14 := rotl64 e20 18
    let b24 := rotl64 e21 2
    let b9 := rotl64 e22 61
    let b19 := rotl64 e23 56
    let b4 := rotl64 e24 14
    -- χ and ι
    let f0 := (b0 ^^^ ((b1 ^^^ M64) &&& b2)) ^^^ rc
    let f1 := b1 ^^^ ((b2 ^^^ M64) &&& b3)
    let f2 := b2 ^^^ ((b3 ^^^ M64) &&& b4)
    let f3 := b3 ^^^ ((b4 ^^^ M64) &&& b0)
    let f4 := b4 ^^^ ((b0 ^^^ M64) &&& b1)
    let f5 := b5 ^^^ ((b6 ^^^ M64) &&& b7)
    let f6 := b6 ^^^ ((b7 ^^^ M64) &&& b8)
    let f7 := b7 ^^^ ((b8 ^^^ M64) &&& b9)
    let f8 := b8 ^^^ ((b9 ^^^ M64) &&& b5)
    let f9 := b9 ^^^ ((b5 ^^^ M64) &&& b6)
    let f10 := b10 ^^^ ((b11 ^^^ M64) &&& b12)
    let f11 := b11 ^^^ ((b12 ^^^ M64) &&& b13)
    let f12 := b12 ^^^ ((b13 ^^^ M64) &&& b14)
    let f13 := b13 ^^^ ((b14 ^^^ M64) &&& b10)
    let f14 := b14 ^^^ ((b10 ^^^ M64) &&& b11)
    let f15 := b15 ^^^ ((b16 ^^^ M64) &&& b17)
    let f16 := b16 ^^^ ((b17 ^^^ M64) &&& b18)
    let f17 := b17 ^^^ ((b18 ^^^ M64) &&& b19)
    let f18 := b18 ^^^ ((b19 ^^^ M64) &&& b15)
    let f19 := b19 ^^^ ((b15 ^^^ M64) &&& b16)
    let f20 := b20 ^^^ ((b21 ^^^ M64) &&& b22)
    let f21 := b21 ^^^ ((b22 ^^^ M64) &&& b23)
    let f22 := b22 ^^^ ((b23 ^^^ M64) &&& b24)
    let f23 := b23 ^^^ ((b24 ^^^ M64) &&& b20)
    let f24 := b24 ^^^ ((b20 ^^^ M64) &&& b21)
    [f0, f1, f2, f3, f4, f5, f6, f7, f8, f9, f10, f11, f12, f13, f14,
     f15, f16, f17, f18, f19, f20, f21, f22, f23, f24]
  | s => s

/-- The full Keccak-f[1600] permutation (24 rounds). -/
def keccakF (s : List Nat) : List Nat :=
  keccakRC.foldl (fun st rc => keccakRound rc st) s

/-- Little-endian 64-bit lane from (up to) 8 bytes. -/
def laneOfBytes : List Nat → Nat
  | [] => 0
  | b :: bs => b % 256 + 256 * laneOfBytes bs

/-- Split a rate block into its lanes, 8 bytes at a time, structurally
recursing on a lane counter (17 lanes for a 136-byte block). -/
def lanesOfBlockAux : Nat → List Nat → List Nat
  | 0, _ => []
  | _, [] => []
  | n + 1, l => laneOfBytes (l.take 8) :: lanesOfBlockAux n (l.drop 8)

/-- Split a 136-byte rate block into its 17 lanes. -/
def lanesOfBlock (block : List Nat) : List Nat :=
  lanesOfBlockAux 17 block

/-- XOR a block's lanes into the leading lanes of the state. -/
def xorLanes : List Nat → List Nat → List Nat
  | s, [] => s
  | [], _ => []
  | a :: s, l :: ls => (a ^^^ l) :: xorLanes s ls

/-- Absorb one 136-byte block and permute. -/
def absorbBlock (s : List Nat) (block : List Nat) : List Nat :=
  keccakF (xorLanes s (lanesOfBlock block))

/-- Split a padded message into 136-byte blocks; the first argument is a
structural bound on the number of blocks (any value at least
`msg.length / 136 + 1` gives the full chunking). -/
def blocks136Aux : Nat → List Nat → List (List Nat)
  | 0, _ => []
  | _, [] => []
  | n + 1, l => l.take 136 :: blocks136Aux n (l.drop 136)

/-- Split a padded message into 136-byte blocks. -/
def blocks136 (msg : List Nat) : List (List Nat) :=
  blocks136Aux (msg.length / 136 + 1) msg

/-- Legacy Keccak multi-rate padding for rate 136: append `0x01`, zero or
more `0x00`, and a final `0x80` (a single `0x81` byte when only one byte
of padding is needed). -/
def keccakPad (msg : List Nat) : List Nat :=
  let r := 136
  let padLen := r - msg.length % r
  if padLen = 1 then msg ++ [0x81]
  else msg ++ 0x01 :: List.replicate (padLen - 2) 0 ++ [0x80]

/-- Little-endian bytes of a 64-bit lane. -/
def laneBytes (n : Nat) : List Nat :=
  [n % 256, n / 256 % 256, n / 256 ^ 2 % 256, n / 256 ^ 3 % 256,
   n / 256 ^ 4 % 256, n / 256 ^ 5 % 256, n / 256 ^ 6 % 256, n / 256 ^ 7 % 256]

/-- Keccak-256 digest (32 bytes) of a byte list, as computed by
go-ethereum `crypto.Keccak256`: the first four lanes of the final state,
little-endian. -/
def keccak256 (msg : List Nat) : List Nat :=
  let init : List Nat := List.replicate 25 0
  let final := (blocks136 (keccakPad msg)).foldl absorbBlock init
  laneBytes (final.getD 0 0) ++ laneBytes (final.getD 1 0) ++
    laneBytes (final.getD 2 0) ++ laneBytes (final.getD 3 0)

/-- `common.Hash.Hex()`: `0x` followed by 64 lower-case hex digits. -/
def hashHex (bs : List Nat) : String :=
  "0x" ++ hexEncode bs

/-! ## Go string helpers (`strings` package) -/

/-- `strings.ToLower`; all inputs in this code base are ASCII, for which
`Char.toLower` agrees with Go's Unicode lowering. -/
def goToLower (s : String) : String :=
  ⟨s.data.map Char.toLower⟩

/-- `strings.HasPrefix`. -/
def goHasPrefix (s pre : String) : Bool :=
  pre.data.isPrefixOf s.data

/-- `strings.TrimPrefix`. -/
def goTrimPrefix (s pre : String) : String :=
  if pre.data.isPrefixOf s.data then ⟨s.data.drop pre.data.length⟩ else s

/-- `strings.TrimSuffix`. -/
def goTrimSuffix (s suf : String) : String :=
  if suf.data.isSuffixOf s.data then ⟨s.data.take (s.data.length - suf.data.length)⟩ else s

/-- `strings.TrimSpace` for ASCII space characters (the only whitespace in
the registry signature strings). -/
def goTrimSpace (s : String) : String :=
  ⟨(s.data.dropWhile (· = ' ')).reverse.dropWhile (· = ' ') |>.reverse⟩

/-- Split a character list at every occurrence of `sep`
(`strings.Split` with a one-character separator). -/
def splitCharAux (sep : Char) (acc : List Char) : List Char → List (List Char)
  | [] => [acc.reverse]
  | c :: rest =>
    if c = sep then acc.reverse :: splitCharAux sep [] rest
    else splitCharAux sep (c :: acc) rest

/-- `strings.Split (s, sep)` for a one-character separator. -/
def goSplit (s : String) (sep : Char) : List String :=
  (splitCharAux sep [] s.data).map fun l => ⟨l⟩

/-- Number of occurrences of a character (`strings.Count` with a
one-character substring). -/
def goCount (s : String) (c : Char) : Nat :=
  s.data.countP (· = c)

/-! ## Semantic versions (`Masterminds/semver/v3`)

`core/hashing.go` parses `tx.SafeVersion` with `semver.NewVersion` and
checks it against the fixed constraints `<= 1.2.0` and `< 1.0.0`. -/

/-- A parsed semantic version (numeric core, prerelease, metadata). -/
structure GoSemver where
  major : Nat
  minor : Nat
  patch : Nat
  pre : String
  build : String
deriving DecidableEq, Repr

/-- Numeric value of a digit list. -/
def digitsVal (l : List Char) : Nat :=
  l.foldl (fun a c => a * 10 + (c.toNat - '0'.toNat)) 0

/-- Greedily parse a nonempty digit run; mirrors a `[0-9]+` group followed
by `strconv.ParseUint`, which fails above 2^64 - 1. -/
def parseNumComponent (l : List Char) : Option (Nat × List Char) :=
  let digits := l.takeWhile Char.isDigit
  if digits.isEmpty then none
  else if digitsVal digits < 2 ^ 64 then some (digitsVal digits, l.drop digits.length)
  else none

/-- Characters allowed inside prerelease / metadata segments. -/
def isSemverSegChar (c : Char) : Bool :=
  c.isAlpha || c.isDigit || c = '-'

/-- Validate a prerelease or metadata body: dot-separated nonempty
segments of `[0-9A-Za-z-]`; when `zeroRule` is set, an all-numeric
segment longer than one character must not start with `0`
(`semver.validatePrerelease`). -/
def validSegments (zeroRule : Bool) (body : List Char) : Bool :=
  (splitCharAux '.' [] body).all fun seg =>
    ¬seg.isEmpty && seg.all isSemverSegChar &&
      (¬zeroRule || !(seg.all Char.isDigit && seg.length > 1 && seg.headD ' ' = '0'))

/-- `semver.NewVersion`: optional `v`, one to three numeric components
(missing minor/patch default to 0), optional `-prerelease`, optional
`+metadata`; anchored at both ends. -/
def parseSemverGo (s : String) : Option GoSemver := do
  let l := s.data
  let l := match l with
    | 'v' :: rest => rest
    | _ => l
  let (major, l) ← parseNumComponent l
  let (minor, l) ← match l with
    | '.' :: rest => parseNumComponent rest
    | _ => some (0, l)
  let (patch, l) ← match l with
    | '.' :: rest => parseNumComponent rest
    | _ => some (0, l)
  let (pre, l) ← match l with
    | '-' :: rest =>
      let body := rest.takeWhile fun c => isSemverSegChar c || c = '.'
      if validSegments true body then some ((⟨body⟩ : String), rest.drop body.length)
      else none
    | _ => some ("", l)
  let (build, l) ← match l with
    | '+' :: rest =>
      let body := rest.takeWhile fun c => isSemverSegChar c || c = '.'
      if validSegments false body then some ((⟨body⟩ : String), rest.drop body.length)
      else none
    | _ => some ("", l)
  if l.isEmpty then
    some { major := major, minor := minor, patch := patch, pre := pre, build := build }
  else none

/-- Compare the numeric cores of a version against a constraint version. -/
def semverCoreCmp (v : GoSemver) (maj min pat : Nat) : Ordering :=
  if v.major < maj then .lt else if v.major > maj then .gt
  else if v.minor < min then .lt else if v.minor > min then .gt
  else if v.patch < pat then .lt else if v.patch > pat then .gt
  else .eq

/-- The Masterminds check of the fixed constraint `<= 1.2.0`
(`version120Constraint` in `core/hashing.go`).  A comparison constraint
without a prerelease never matches a version that carries one. -/
def version120Check (v : GoSemver) : Bool :=
  if v.pre ≠ "" then false
  else semverCoreCmp v 1 2 0 ≠ .gt

/-- The Masterminds check of the fixed constraint `< 1.0.0`
(`version100Constraint` in `core/hashing.go`). -/
def version100Check (v : GoSemver) : Bool :=
  if v.pre ≠ "" then false
  else semverCoreCmp v 1 0 0 = .lt

/-! ## Constants (`core/constants.go`) -/

def DomainSeparatorTypehash : String :=
  "0x47e79534a245952e8b16893a336b85a3d9ea9fa8c573f3d803afb92a79469218"

def SafeTxTypehash : String :=
  "0xbb8310d486368db6bd6f849402fdd73ad53d316b5a4b2644ad6efe0f941286d8"

/-- Modelled from the spec: the legacy (≤ 1.2.0) domain-separator
typehash referenced by `core/hashing.go` but whose defining constant is
not among the source files; the value is the canonical Safe constant
`keccak256("EIP712Domain(address verifyingContract)")`.  No claim depends
on the value, only on which constant is selected. -/
def DomainSeparatorTypehashOld : String :=
  "0x035aff83d86937d35b32e04f0ddc6ff469290eef2f1b692d8a815aceb62857b5"

/-- Modelled from the spec: the legacy (< 1.0.0) safe-tx typehash
referenced by `core/hashing.go` but whose defining constant is not among
the source files.  No claim depends on the value, only on which constant
is selected. -/
def SafeTxTypehashOld : String :=
  "0x14d461bc7412367e924637b363c7bf29b8f47e2f84869f4426e5633d8af47b20"

def SafeMultisendSig : String := "multiSend(bytes transactions)"

def Aggregate3Sig : String :=
  "aggregate3((address target,bool allowFailure,bytes callData)[] calls)"

/-- Modelled from the spec: the `aggregate3Value` batching entry point
(struct-array aggregate call with a per-call `value`), referenced by
`parseMulticall` but whose constant is not among the source files. -/
def Aggregate3ValueSig : String :=
  "aggregate3Value((address target,bool allowFailure,uint256 value,bytes callData)[] calls)"

def SafeMultisendAddress : String := "0xA1dabEF33b3B82c7814B6D82A79e50F4AC44102B"
def SafeMultisendCallOnly141 : String := "0x9641d764fc13c8B624c04430C7356C1C7C8102e2"
def Multicall3Address : String := "0xcA11bde05977b3631167028862bE2a173976CA11"

/-- Modelled from the spec: the delegatecall variant of Multicall3
accepted by `parseMulticall`, whose constant is not among the source
files.  It is not on the `MulticallAddresses` allow-list in the source,
so only its distinctness from the other batching addresses matters. -/
def Multicall3Delegatecall : String := "0x0CA1100De05977b3631167028862bE2a173976CA"

def USDCMainnetAddress : String := "0xA0b86991c6218b36c1d19D4a2e9Eb0cE3606eB48"
def OPTokenAddress : String := "0x4200000000000000000000000000000000000042"
def SuperfluidOP : String := "0x1828Bff08BD244F7990edDCd9B19cc654b33cDB4"
def OptimismGovernor : String := "0xcDF27F107725988f2261Ce2256bDfCdE8B382B10"
def OPGrants1 : String := "0x2501c477D0A35545a387Aa4A3EEe4292A9a8B3F0"
def OPGrants2 : String := "0x19793c7824Be70ec58BB673CA42D2779d12581BE"

/-- `KnownSignatures` from `core/constants.go`, with the
`aggregate3Value` entry modelled from the spec (it is named by the
decoder in the source files but the registry list in `src` predates it). -/
def KnownSignatures : List String :=
  ["transfer(address to,uint256 amount)",
   "transferFrom(address from,address to,uint256 amount)",
   "approve(address spender,uint256 amount)",
   "increaseAllowance(address spender,uint256 amount)",
   "decreaseAllowance(address spender,uint256 amount)",
   "approveHash(bytes32 hashToApprove)",
   "aggregate3((address target,bool allowFailure,bytes callData)[] calls)",
   "aggregate3Value((address target,bool allowFailure,uint256 value,bytes callData)[] calls)",
   "multiSend(bytes transactions)",
   "callAgreement(address agreementClass, bytes callData, bytes userData)",
   "createVestingScheduleFromAmountAndDuration(address superToken, address receiver, uint256 totalAmount, uint32 totalDuration, uint32 startDate, uint32 cliffPeriod, uint32 claimPeriod)",
   "propose(address[] targets, uint256[] values, bytes[] calldatas, string description, uint8 proposalType)"]

/-- `TokenFunctions`: token functions whose amount is rescaled. -/
def TokenFunctions : List String :=
  ["transfer", "transferFrom", "approve", "increaseAllowance", "decreaseAllowance"]

structure ContractInfo where
  Name : String
  Decimals : Nat
deriving DecidableEq, Repr

def MainnetChainID : Nat := 1
def OPMainnetChainID : Nat := 10

/-- Assoc-list lookup standing in for a Go map access (all key sets used
in this code base are duplicate-free). -/
def lookupMap {α : Type} (m : List (String × α)) (k : String) : Option α :=
  (m.find? fun p => p.1 == k).map (·.2)

/-- `KnownContracts` from `core/constants.go`: chain id → address →
contract info, with lower-cased address keys. -/
def KnownContracts (chainID : Nat) : List (String × ContractInfo) :=
  if chainID = MainnetChainID then
    [(goToLower SafeMultisendAddress, ⟨"GNOSIS SAFE MULTISEND", 0⟩),
     (goToLower Multicall3Address, ⟨"MULTICALL3", 0⟩),
     (goToLower USDCMainnetAddress, ⟨"USDC", 6⟩)]
  else if chainID = OPMainnetChainID then
    [(goToLower SafeMultisendAddress, ⟨"GNOSIS SAFE MULTISEND CALL ONLY", 0⟩),
     (goToLower SafeMultisendCallOnly141, ⟨"GNOSIS SAFE MULTISEND CALL ONLY", 0⟩),
     (goToLower Multicall3Address, ⟨"MULTICALL3", 0⟩),
     (goToLower OPTokenAddress, ⟨"OP TOKEN", 18⟩),
     (goToLower SuperfluidOP, ⟨"SUPERFLUID OP", 18⟩),
     (goToLower OptimismGovernor, ⟨"OPTIMISM GOVERNOR", 0⟩),
     (goToLower OPGrants1, ⟨"OP GRANTS 1 (3F0)", 0⟩),
     (goToLower OPGrants2, ⟨"OP GRANTS 2 (1BE)", 0⟩)]
  else []

/-- `MulticallAddresses` from `core/constants.go`: chain id → set of
batching contract addresses (lower-cased). -/
def MulticallAddresses (chainID : Nat) : List String :=
  if chainID = MainnetChainID then
    [goToLower SafeMultisendAddress, goToLower Multicall3Address]
  else if chainID = OPMainnetChainID then
    [goToLower SafeMultisendAddress, goToLower SafeMultisendCallOnly141,
     goToLower Multicall3Address]
  else []

/-- `GetKnownContract` from `core/constants.go`. -/
def GetKnownContract (address : String) (chainID : Nat) : Option ContractInfo :=
  lookupMap (KnownContracts chainID) (goToLower address)

/-! ## ABI types and the go-ethereum type parser

`ParseFunctionSignature` turns each registry signature into a minimal
JSON ABI via `getInputsJSON` and parses it with `abi.JSON`.  The JSON
types are parsed by go-ethereum `abi.NewType`. -/

/-- The ABI types that can come out of `abi.NewType` for the registry
signatures (fixed-size arrays and tuple components never occur there and
are modelled as parse failures). -/
inductive AbiType where
  | uint (bits : Nat)
  | address
  | bool
  | fixedBytes (n : Nat)
  | bytes
  | str
  | slice (elem : AbiType)
deriving DecidableEq, Repr

/-- Canonical type string (go-ethereum `Type.String()`); for every type
string occurring in the registry this equals the written form. -/
def typeCanonical : AbiType → String
  | .uint bits => "uint" ++ toString bits
  | .address => "address"
  | .bool => "bool"
  | .fixedBytes n => "bytes" ++ toString n
  | .bytes => "bytes"
  | .str => "string"
  | .slice elem => typeCanonical elem ++ "[]"

/-- First match of go-ethereum's `typeRegex`
`([a-zA-Z]+)([0-9]*)` semantics: the first maximal letter run anywhere in
the string together with the digit run immediately following it. -/
def firstTypeMatch : List Char → Option (String × String)
  | [] => none
  | c :: rest =>
    if c.isAlpha then
      let letters := (c :: rest).takeWhile Char.isAlpha
      let after := (c :: rest).drop letters.length
      let digits := after.takeWhile Char.isDigit
      some (⟨letters⟩, ⟨digits⟩)
    else firstTypeMatch rest

/-- go-ethereum `abi.NewType` on a JSON type string without components.
Notably the regex is not anchored: a parenthesised tuple-style string
such as `(address target,…)` parses as its first identifier.  Fixed-size
arrays, signed integers and the remaining exotic cases never occur for
the registry signatures and are modelled as failures. -/
def goNewTypeF : Nat → String → Option AbiType
  | 0, _ => none
  | fuel + 1, t =>
  if goCount t '[' ≠ goCount t ']' then none
  else if goCount t '[' ≠ 0 then
    let i := (t.data.length - 1) - (t.data.reverse.takeWhile (· ≠ '[')).length
    let inner : String := ⟨t.data.take i⟩
    let sliced := t.data.drop i
    if sliced.any Char.isDigit then none
    else (goNewTypeF fuel inner).map .slice
  else
    match firstTypeMatch t.data with
    | none => none
    | some (letters, digits) =>
      if letters = "uint" then
        let bits := if digits = "" then 256 else digitsVal digits.data
        if 0 < bits ∧ bits ≤ 256 ∧ bits % 8 = 0 then some (.uint bits) else none
      else if letters = "address" then some .address
      else if letters = "bool" then some .bool
      else if letters = "string" then some .str
      else if letters = "bytes" then
        if digits = "" then some .bytes
        else
          let n := digitsVal digits.data
          if 0 < n ∧ n ≤ 32 then some (.fixedBytes n) else none
      else none

/-- `goNewType` with a sufficient recursion budget: each slice peel
strictly shortens the type string, so `t.data.length + 1` units always
suffice. -/
def goNewType (t : String) : Option AbiType :=
  goNewTypeF (t.data.length + 1) t

/-- One parsed method of the minimal ABI built from a registry signature. -/
structure AbiMethod where
  name : String
  inputs : List (String × AbiType)
deriving DecidableEq, Repr

/-- go-ethereum `Method.Sig`: canonical signature used for the selector. -/
def methodSig (m : AbiMethod) : String :=
  m.name ++ "(" ++ String.intercalate "," (m.inputs.map fun p => typeCanonical p.2) ++ ")"

/-- `Method.ID`: first four bytes of the keccak-256 of the canonical
signature. -/
def methodID (m : AbiMethod) : List Nat :=
  (keccak256 (asciiBytes (methodSig m))).take 4

/-- `FunctionInfo` from `core/constants.go`. -/
structure FunctionInfo where
  Name : String
  Signature : String
  ABI : AbiMethod
deriving DecidableEq, Repr

/-- `getInputsJSON` from `core/constants.go`, composed with the JSON
decoding that `abi.JSON` performs: the parameter list text between the
FIRST `(` of the signature and a trailing `)` stripped from its second
`Split` fragment, split on commas into (type, name) pairs.  For the
aggregate signatures, whose parameter list itself starts with `(`, the
second `Split` fragment is the empty string, so the produced input list
is empty. -/
def getInputs (signature : String) : List (String × String) :=
  let fragments := goSplit signature '('
  let paramsStr := goTrimSuffix (fragments.getD 1 "") ")"
  if paramsStr = "" then []
  else
    (goSplit paramsStr ',').enum.map fun (i, param) =>
      let parts := goSplit (goTrimSpace param) ' '
      let paramType := parts.getD 0 ""
      let paramName := if parts.length > 1 then parts.getD 1 "" else "arg" ++ toString i
      (paramName, paramType)

/-- `ParseFunctionSignature` from `core/constants.go`: function name from
the text before the first `(`, inputs from `getInputsJSON` parsed by
`abi.NewType`. -/
def ParseFunctionSignature (sig : String) : Option FunctionInfo := do
  let funcName := (goSplit sig '(').getD 0 ""
  let inputs ← (getInputs sig).mapM fun p => (goNewType p.2).map fun ty => (p.1, ty)
  some { Name := funcName, Signature := sig,
         ABI := { name := funcName, inputs := inputs } }

/-- `KnownFunctions`: selector hex → function info, built exactly as the
`init` in `core/constants.go` does by folding `ParseFunctionSignature`
over `KnownSignatures` (failures are skipped). -/
def KnownFunctions : List (String × FunctionInfo) :=
  KnownSignatures.foldl
    (fun acc sig =>
      match ParseFunctionSignature sig with
      | some fi => acc ++ [(hexEncode (methodID fi.ABI), fi)]
      | none => acc)
    []

/-! ## ABI values and go-ethereum unpacking (`abi.Arguments.Unpack`) -/

/-- A decoded ABI value / a Go `interface{}` entry of the parsed-argument
map.  `vstrBytes` is a Go string coming from an ABI `string` decode (raw
bytes); `vstr` is a string produced by the post-processing in
`parseArguments` (hex renderings, annotations, rescaled amounts).
`vtuple` is a Go struct value with its fields in declared order
(`target`, `allowFailure`, [`value`,] `callData` for the aggregate
calls). -/
inductive AbiVal where
  | vuint (n : Nat)
  | vaddr (bytes : List Nat)
  | vbool (b : Bool)
  | vfixed (bytes : List Nat)
  | vbytes (bytes : List Nat)
  | vstrBytes (bytes : List Nat)
  | vstr (s : String)
  | varr (elems : List AbiVal)
  | vtuple (fields : List AbiVal)
deriving Repr

/-- The 32-byte head word at `index` (callers check bounds first, as
go-ethereum does). -/
def wordAt (output : List Nat) (index : Nat) : List Nat :=
  (output.drop index).take 32

/-- go-ethereum `lengthPrefixPointsTo`: read the offset word at `index`,
require `offset+32 ≤ len`, read the length word there, require
`offset+32+length ≤ len`; returns (payload start, length).  All
arithmetic is done on `big.Int`s in Go, hence unbounded here. -/
def lengthPrefixPointsTo (index : Nat) (output : List Nat) : Option (Nat × Nat) :=
  let bigOffset := natOfBE (wordAt output index)
  if bigOffset + 32 > output.length then none
  else
    let lengthBig := natOfBE (wordAt output bigOffset)
    if bigOffset + 32 + lengthBig > output.length then none
    else some (bigOffset + 32, lengthBig)

/-- go-ethereum `toGoType` for the non-slice types (static word types and
the dynamic `bytes`/`string`), including the upfront
`index+32 ≤ len` check.  A nested slice element type is modelled as a
failure: no registered signature produces one. -/
def toGoTypeBase (t : AbiType) (output : List Nat) (index : Nat) : Option AbiVal :=
  if index + 32 > output.length then none
  else match t with
    | .uint bits => some (.vuint (natOfBE ((wordAt output index).drop (32 - bits / 8))))
    | .address => some (.vaddr ((wordAt output index).drop 12))
    | .bool =>
      let w := natOfBE (wordAt output index)
      if w = 1 then some (.vbool true)
      else if w = 0 then some (.vbool false)
      else none
    | .fixedBytes n => some (.vfixed ((output.drop index).take n))
    | .bytes =>
      (lengthPrefixPointsTo index output).map fun p => .vbytes ((output.drop p.1).take p.2)
    | .str =>
      (lengthPrefixPointsTo index output).map fun p => .vstrBytes ((output.drop p.1).take p.2)
    | .slice _ => none

/-- go-ethereum `forEachUnpack` element loop: element `j` of a slice is
decoded at head offset `32*j` of the array data region. -/
def sliceLoop (elem : AbiType) (region : List Nat) : Nat → Nat → Option (List AbiVal)
  | 0, _ => some []
  | n + 1, j => do
    let v ← toGoTypeBase elem region (j * 32)
    let vs ← sliceLoop elem region n (j + 1)
    pure (v :: vs)

/-- go-ethereum `toGoType`: slices go through `lengthPrefixPointsTo`
(whose length is the element count) and `forEachUnpack`, which checks
`32*size ≤ len(region)`; everything else through `toGoTypeBase`. -/
def toGoType (t : AbiType) (output : List Nat) (index : Nat) : Option AbiVal :=
  match t with
  | .slice elem =>
    if index + 32 > output.length then none
    else do
      let p ← lengthPrefixPointsTo index output
      let region := output.drop p.1
      if 32 * p.2 > region.length then none
      else (sliceLoop elem region p.2 0).map .varr
  | t => toGoTypeBase t output index

/-- `abi.Arguments.Unpack`: empty data is an error when arguments are
expected; otherwise argument `i` is decoded at head offset `32*i`
(every registry argument type occupies one head word). -/
def unpackArgs (inputs : List (String × AbiType)) (data : List Nat) : Option (List (String × AbiVal)) :=
  if data.isEmpty then
    if inputs.isEmpty then some [] else none
  else
    inputs.enum.mapM fun p => (toGoType p.2.2 data (p.1 * 32)).map fun v => (p.2.1, v)

/-- Go string from raw bytes, one code point per byte (used only to model
string-typed values flowing into byte-level comparisons). -/
def stringOfBytes (bs : List Nat) : String :=
  ⟨bs.map fun b => Char.ofNat (b % 256)⟩

/-- The per-element conversion `parseArguments` applies to indexed array
entries: byte slices are rendered as `0x…` hex strings. -/
def convertIndexedElem : AbiVal → AbiVal
  | .vbytes bs => .vstr ("0x" ++ hexEncode bs)
  | v => v

/-- The per-argument post-processing of `parseArguments`: a non-byte
slice is stored under its own name and additionally as indexed
`name[j]` entries; a `[]byte` is rendered as hex; a fixed `[n]uint8`
array goes through the `fmt.Sprintf`/`Sscanf` round-trip whose net
effect is the same hex rendering. -/
def convertTopArg (p : String × AbiVal) : List (String × AbiVal) :=
  match p.2 with
  | .varr elems =>
    (p.1, .varr elems) ::
      elems.enum.map fun q => (p.1 ++ "[" ++ toString q.1 ++ "]", convertIndexedElem q.2)
  | .vbytes bs => [(p.1, .vstr ("0x" ++ hexEncode bs))]
  | .vfixed bs => [(p.1, .vstr ("0x" ++ hexEncode bs))]
  | v => [(p.1, v)]

/-- `parseArguments` from the decoder source: strip `0x`, strictly
hex-decode, require at least the 4-byte selector, unpack the remaining
bytes against the method inputs, and post-process the value map. -/
def parseArguments (method : AbiMethod) (calldata : String) : Option (List (String × AbiVal)) := do
  let calldata := goTrimPrefix calldata "0x"
  let data ← hexDecodeStrict calldata
  if data.length < 4 then none
  else
    let inputData := data.drop 4
    let args ← unpackArgs method.inputs inputData
    some (args.map convertTopArg).flatten

/-! ## Display helpers of the decoder (`ParseDecimals`, `addCommas`,
checksummed address rendering) -/

/-- `addCommas` from the decoder source: commas every three digits from
the right, strings of length ≤ 3 unchanged. -/
def addCommasRev (count : Nat) : List Char → List Char
  | [] => []
  | c :: rest =>
    c :: (if (count + 1) % 3 = 0 ∧ rest ≠ [] then ',' :: addCommasRev (count + 1) rest
          else addCommasRev (count + 1) rest)

/-- `addCommas`. -/
def addCommas (s : String) : String :=
  if s.data.length ≤ 3 then s
  else ⟨(addCommasRev 0 s.data.reverse).reverse⟩

/-- `ParseDecimals` from the decoder source: render `amount` with
`decimals` fractional digits, comma-grouping the integer part, trimming
trailing fractional zeros but keeping two places when the fraction is
entirely zero. -/
def ParseDecimals (amount : Nat) (decimals : Nat) : String :=
  let amountStr := (toString amount).data
  let amountStr :=
    if amountStr.length ≤ decimals then
      List.replicate (decimals - amountStr.length + 1) '0' ++ amountStr
    else amountStr
  let decimalPos := amountStr.length - decimals
  let intPart : List Char := amountStr.take decimalPos
  let fracPart : List Char := if decimals > 0 then amountStr.drop decimalPos else []
  let intPartWithCommas := addCommas ⟨intPart⟩
  if decimals > 0 then
    if fracPart.all (· = '0') then
      if fracPart.length ≥ 2 then intPartWithCommas ++ "." ++ ⟨fracPart.take 2⟩
      else intPartWithCommas ++ "." ++ ⟨fracPart⟩ ++ ⟨List.replicate (2 - fracPart.length) '0'⟩
    else
      let trimmed := (fracPart.reverse.dropWhile (· = '0')).reverse
      if trimmed.length > 0 then intPartWithCommas ++ "." ++ ⟨trimmed⟩
      else intPartWithCommas
  else intPartWithCommas

/-- Nibble `i` (big-endian within each byte) of a byte list. -/
def nibbleAt (bs : List Nat) (i : Nat) : Nat :=
  let b := bs.getD (i / 2) 0
  if i % 2 = 0 then b / 16 % 16 else b % 16

/-- go-ethereum `common.Address.Hex()`: EIP-55 checksummed rendering —
a hex digit is upper-cased when the corresponding nibble of the keccak
hash of the lower-case hex string is at least 8. -/
def addressHex (a : List Nat) : String :=
  let unchecksummed := hexChars a
  let hash := keccak256 (asciiBytes ⟨unchecksummed⟩)
  "0x" ++ ⟨unchecksummed.enum.map fun q =>
    if q.2.isAlpha ∧ nibbleAt hash q.1 ≥ 8 then q.2.toUpper else q.2⟩

/-! ## The calldata decoder (`ParseTransactionData`, `parseMulticall`) -/

/-- A Go failure: an `error` return value, or a runtime panic (which
unwinds the whole program rather than being handled). -/
inductive GoErr where
  | err (msg : String)
  | panic (msg : String)
deriving DecidableEq, Repr

/-- `CallData` from `core/verify.go` (an inductive because `SubCalls`
nests the type).  Go zero values: empty strings, nil `ParsedData`, nil
`SubCalls`, false flag. -/
inductive CallData where
  | mk (Target TargetName FunctionName FunctionData RawData : String)
       (ParsedData : Option (List (String × AbiVal)))
       (SubCalls : List CallData)
       (IsDelegateCall : Bool)
deriving Repr

def CallData.Target : CallData → String
  | .mk t _ _ _ _ _ _ _ => t

def CallData.TargetName : CallData → String
  | .mk _ tn _ _ _ _ _ _ => tn

def CallData.FunctionName : CallData → String
  | .mk _ _ fn _ _ _ _ _ => fn

def CallData.FunctionData : CallData → String
  | .mk _ _ _ fd _ _ _ _ => fd

def CallData.RawData : CallData → String
  | .mk _ _ _ _ rd _ _ _ => rd

def CallData.ParsedData : CallData → Option (List (String × AbiVal))
  | .mk _ _ _ _ _ pd _ _ => pd

def CallData.SubCalls : CallData → List CallData
  | .mk _ _ _ _ _ _ sc _ => sc

def CallData.IsDelegateCall : CallData → Bool
  | .mk _ _ _ _ _ _ _ d => d

/-- `VerifyOptions` from `core/verify.go`. -/
structure VerifyOptions where
  Verbose : Bool
deriving DecidableEq, Repr

/-- Wrap a signed value into the 64-bit two's complement range, the way
Go `int` arithmetic and `int(uint64)` conversions behave. -/
def wrap64 (z : Int) : Int :=
  (z + 2 ^ 63) % 2 ^ 64 - 2 ^ 63

/-- The byte-packed multi-send record loop of `parseMulticall`.
`parse` is the recursive `ParseTransactionData` call.  The first `Nat` is
a structural bound on the number of iterations (each iteration consumes
at least 85 bytes, so `data.length + 1` is always sufficient); the second
is the cursor `pos`.  The declared record length travels through
`big.Int.Uint64()` (low 64 bits) and an `int` conversion, so the bounds
check `pos+int(length) > len(data)` can be bypassed by signed overflow,
in which case the slice expression panics. -/
def msLoopAux (parse : String → String → Except GoErr CallData) (data : List Nat) :
    Nat → Nat → Except GoErr (List CallData)
  | 0, _ => .error (.panic "multisend loop: iteration bound exhausted")
  | loopFuel + 1, pos =>
    if pos < data.length then
      if pos + 85 > data.length then .ok []
      else
        let toBytes := (data.drop (pos + 1)).take 20
        let lenWord := (data.drop (pos + 53)).take 32
        let lengthU64 : Nat := natOfBE lenWord % 2 ^ 64
        let hi : Int := wrap64 ((pos + 85 : Int) + wrap64 (lengthU64 : Int))
        if hi > (data.length : Int) then .ok []
        else if hi < ((pos + 85 : Nat) : Int) then
          .error (.panic "runtime error: slice bounds out of range")
        else
          let callData := (data.drop (pos + 85)).take (hi.toNat - (pos + 85))
          match parse (addressHex (bytesToAddress toBytes)) ("0x" ++ hexEncode callData) with
          | .error e => .error e
          | .ok subcall =>
            (msLoopAux parse data loopFuel hi.toNat).map fun subs => subcall :: subs
    else .ok []

/-- The multi-send record loop started at `pos = 0` with a sufficient
iteration bound. -/
def msLoop (parse : String → String → Except GoErr CallData) (data : List Nat) :
    Except GoErr (List CallData) :=
  msLoopAux parse data (data.length + 1) 0

/-- One extracted element of an aggregate call: the 20-byte target and
its call data (`Call3` in `parseMulticall`; the `value` field of
`aggregate3Value` is extracted but unused by the recursion). -/
structure Call3 where
  target : List Nat
  callData : List Nat

/-- The reflection-based extraction `parseMulticall` performs on the raw
`calls` value for `aggregate3` (3 fields) or `aggregate3Value`
(4 fields).  A non-slice value is an error; a slice of non-struct values
makes `FieldByNameFunc` panic; a struct with a missing field is an
error; a field of the wrong dynamic type makes the type assertion
panic. -/
def reflectCalls (withValue : Bool) (rawCalls : AbiVal) : Except GoErr (List Call3) :=
  match rawCalls with
  | .varr items =>
    items.mapM fun item =>
      match item with
      | .vtuple fields =>
        if withValue then
          match fields with
          | [.vaddr a, .vbool _, .vuint _, .vbytes cd] => .ok ⟨a, cd⟩
          | [_, _, _, _] => .error (.panic "interface conversion: wrong field type")
          | _ => .error (.err "missing target field in call")
        else
          match fields with
          | [.vaddr a, .vbool _, .vbytes cd] => .ok ⟨a, cd⟩
          | [_, _, _] => .error (.panic "interface conversion: wrong field type")
          | _ => .error (.err "missing target field in call")
      | _ => .error (.panic "reflect: FieldByNameFunc of non-struct type")
  | .vbytes [] => .ok []
  | .vbytes (_ :: _) => .error (.panic "reflect: FieldByNameFunc of non-struct type")
  | _ => .error (.err "aggregate3 calls must be a slice")

/-- The aggregate element loop of `parseMulticall`: a recursive decode
that returns an `error` is skipped (`continue`), while a panic unwinds. -/
def aggLoop (parse : String → String → Except GoErr CallData) :
    List Call3 → Except GoErr (List CallData)
  | [] => .ok []
  | c :: rest =>
    match parse (addressHex c.target) ("0x" ++ hexEncode c.callData) with
    | .error (.panic m) => .error (.panic m)
    | .error (.err _) => aggLoop parse rest
    | .ok subcall => (aggLoop parse rest).map fun subs => subcall :: subs

/-- `parseMulticall`, generic in the recursive decode `parse`
(the source calls `ParseTransactionData` there). -/
def parseMulticallGen (parse : String → String → Except GoErr CallData)
    (contractAddress : String) (functionInfo : FunctionInfo)
    (args : List (String × AbiVal)) : Except GoErr (List CallData) :=
  let normalizedAddress := goToLower contractAddress
  if normalizedAddress == goToLower SafeMultisendAddress ∨
      normalizedAddress == goToLower SafeMultisendCallOnly141 then
    if functionInfo.Signature == SafeMultisendSig then
      let hexData? : Option String :=
        match lookupMap args "transactions" with
        | some (.vstr s) => some s
        | some (.vstrBytes bs) => some (stringOfBytes bs)
        | _ => none
      match hexData? with
      | none => .error (.err "invalid multiSend data format")
      | some hexData =>
        if ¬goHasPrefix hexData "0x" then .error (.err "invalid multiSend data format")
        else
          match hexDecodeStrict (goTrimPrefix hexData "0x") with
          | none => .error (.err "invalid multiSend data: encoding/hex: invalid byte")
          | some data => msLoop parse data
    else
      .error (.err ("unsupported function " ++ functionInfo.Signature ++
        " for Safe Multisend contract"))
  else if normalizedAddress == goToLower Multicall3Address ∨
      normalizedAddress == goToLower Multicall3Delegatecall then
    if functionInfo.Signature == Aggregate3Sig then
      match lookupMap args "calls" with
      | none => .error (.err "missing calls in aggregate3 data")
      | some rawCalls =>
        match reflectCalls false rawCalls with
        | .error e => .error e
        | .ok calls => aggLoop parse calls
    else if functionInfo.Signature == Aggregate3ValueSig then
      match lookupMap args "calls" with
      | none => .error (.err "missing calls in aggregate3 data")
      | some rawCalls =>
        match reflectCalls true rawCalls with
        | .error e => .error e
        | .ok calls => aggLoop parse calls
    else
      .error (.err ("unsupported function " ++ functionInfo.Signature ++
        " for Multicall3 contract"))
  else
    .error (.err ("unsupported multicall contract: " ++ contractAddress))

/-- The token-amount and known-address post-processing steps of
`ParseTransactionData` between argument parsing and the multicall
check.  The Go type assertion `parsedArgs["amount"].(*big.Int)` is a
hard assertion (panics when the value is not a `*big.Int`). -/
def adjustTokenAmount (contractInfo? : Option ContractInfo) (functionName : String)
    (args : List (String × AbiVal)) : Except GoErr (List (String × AbiVal)) :=
  match contractInfo? with
  | some ci =>
    if TokenFunctions.contains functionName ∧ ci.Decimals > 0 then
      match lookupMap args "amount" with
      | none => .ok args
      | some (.vuint n) =>
        .ok (args.map fun p =>
          if p.1 == "amount" then (p.1, .vstr (ParseDecimals n ci.Decimals)) else p)
      | some _ => .error (.panic "interface conversion: interface is not *big.Int")
    else .ok args
  | none => .ok args

/-- The known-contract annotation loop of `ParseTransactionData`:
address-valued arguments whose checksummed rendering is a known contract
are replaced by an annotated string. -/
def annotateKnownAddresses (chainID : Nat) (args : List (String × AbiVal)) :
    List (String × AbiVal) :=
  args.map fun p =>
    match p.2 with
    | .vaddr a =>
      match GetKnownContract (addressHex a) chainID with
      | some ci => (p.1, .vstr (addressHex a ++ " (" ++ ci.Name ++ " 🔍)"))
      | none => p
    | _ => p

/-- `ParseTransactionData` with an explicit recursion budget (one unit
per batching level; the source has no such bound, and the budget
`data.length + 1` used by the wrapper below is never exhausted — see the
fuel-independence theorem). -/
def ParseTransactionDataF : Nat → String → String → Nat → VerifyOptions →
    Except GoErr CallData
  | 0, _, _, _, _ => .error (.panic "recursion budget exhausted")
  | fuel + 1, toAddr, data, chainID, options =>
    let cleanData := goTrimPrefix data "0x"
    let normalizedTo := goToLower toAddr
    let contractInfo? := GetKnownContract normalizedTo chainID
    let targetName := match contractInfo? with | some ci => ci.Name | none => ""
    if cleanData.length = 0 then
      .ok (.mk toAddr targetName "unknown" "" ("0x" ++ data) none [] false)
    else if cleanData.length < 8 then
      .ok (.mk toAddr targetName "unknown" "" data none [] false)
    else
      let functionSelector : String := ⟨cleanData.data.take 8⟩
      match lookupMap KnownFunctions functionSelector with
      | none => .ok (.mk toAddr targetName "unknown" "" data none [] false)
      | some functionInfo =>
        match parseArguments functionInfo.ABI ("0x" ++ cleanData) with
        | none => .ok (.mk toAddr targetName functionInfo.Name "" data none [] false)
        | some parsedArgs =>
          match adjustTokenAmount contractInfo? functionInfo.Name parsedArgs with
          | .error e => .error e
          | .ok parsedArgs =>
            let parsedArgs := annotateKnownAddresses chainID parsedArgs
            let isMulticallContract := (MulticallAddresses chainID).contains normalizedTo
            let isMulticallFunction := functionInfo.Name == "multiSend" ∨
              functionInfo.Name == "aggregate3" ∨ functionInfo.Name == "aggregate3Value"
            if isMulticallContract ∧ isMulticallFunction then
              match parseMulticallGen
                  (fun to1 data1 => ParseTransactionDataF fuel to1 data1 chainID options)
                  normalizedTo functionInfo parsedArgs with
              | .error e => .error e
              | .ok subcalls =>
                .ok (.mk toAddr targetName functionInfo.Name "" "" none subcalls false)
            else
              .ok (.mk toAddr targetName functionInfo.Name "" "" (some parsedArgs) [] false)

/-- `ParseTransactionData` from the decoder source, with the recursion
budget instantiated to `data.length + 1` (shown sufficient by the
fuel-independence theorem). -/
def ParseTransactionData (toAddr data : String) (chainID : Nat) (options : VerifyOptions) :
    Except GoErr CallData :=
  ParseTransactionDataF (data.length + 1) toAddr data chainID options

/-- `parseMulticall` from the decoder source: `parseMulticallGen` with
the recursive reference instantiated to `ParseTransactionData`. -/
def parseMulticall (contractAddress : String) (chainID : Nat)
    (functionInfo : FunctionInfo) (args : List (String × AbiVal))
    (options : VerifyOptions) : Except GoErr (List CallData) :=
  parseMulticallGen (fun toAddr data => ParseTransactionData toAddr data chainID options)
    contractAddress functionInfo args

/-! ## Transactions and the hash engine (`core/verify.go`, `core/hashing.go`) -/

/-- `Nested` from `core/verify.go`: the outer approveHash transaction's
own fields. -/
structure Nested where
  Safe : String
  SafeVersion : String
  Nonce : Int
  Data : String
  Operation : Int
  To : String
deriving Repr

/-- The zero `CallData` value. -/
def emptyCallData : CallData := .mk "" "" "" "" "" none [] false

/-- `SafeTransaction` from `core/verify.go`.  Go `int` fields are `Int`;
`Value` is the arbitrary-precision `*big.Int`. -/
structure SafeTransaction where
  Safe : String
  SafeVersion : String
  Chain : Int
  To : String
  Value : Int
  Data : String
  Operation : Int
  SafeTxGas : Int
  BaseGas : Int
  GasPrice : Int
  GasToken : String
  RefundReceiver : String
  Nonce : Int
  Nested : Option Nested := none
  Call : CallData := emptyCallData
deriving Repr

/-- `VerificationResult` from `core/verify.go` (an inductive because
`NestedResult` nests the type). -/
inductive VerificationResult where
  | mk (Transaction : SafeTransaction)
       (DomainHash MessageHash ApproveHash : String)
       (Call : CallData)
       (NestedResult : Option VerificationResult)
deriving Repr

def VerificationResult.Transaction : VerificationResult → SafeTransaction
  | .mk t _ _ _ _ _ => t

def VerificationResult.DomainHash : VerificationResult → String
  | .mk _ d _ _ _ _ => d

def VerificationResult.MessageHash : VerificationResult → String
  | .mk _ _ m _ _ _ => m

def VerificationResult.ApproveHash : VerificationResult → String
  | .mk _ _ _ a _ _ => a

def VerificationResult.Call : VerificationResult → CallData
  | .mk _ _ _ _ c _ => c

def VerificationResult.NestedResult : VerificationResult → Option VerificationResult
  | .mk _ _ _ _ _ n => n

/-- Replace the `NestedResult` field. -/
def VerificationResult.setNestedResult : VerificationResult → Option VerificationResult → VerificationResult
  | .mk t d m a c _, n => .mk t d m a c n

/-- ABI word of an address value given as a hex string:
`common.HexToAddress` then left-padding to 32 bytes, as
`abi.Arguments.Pack` lays out an `address`. -/
def wordOfAddress (s : String) : List Nat :=
  List.replicate 12 0 ++ bytesToAddress (fromHexGo s)

/-- ABI word of a `uint256` from a (possibly negative) `big.Int`:
`math.U256Bytes` wraps two's-complement into 32 big-endian bytes. -/
def wordOfU256 (z : Int) : List Nat :=
  beBytes 32 (z % (2 : Int) ^ 256).toNat

/-- `CalculateDomainHash` from `core/hashing.go`: parse the Safe version;
for versions matching `<= 1.2.0` pack `(bytes32 legacyTypehash,
address safe)` (no chain id), otherwise `(bytes32 typehash,
uint256 chainId, address safe)`; keccak the packed tuple. -/
def CalculateDomainHash (tx : SafeTransaction) : Except String String :=
  match parseSemverGo tx.SafeVersion with
  | none => .error "Invalid Semantic Version"
  | some currentVersion =>
    if version120Check currentVersion then
      let typehash := bytesToHash32 (fromHexGo DomainSeparatorTypehashOld)
      let packed := typehash ++ wordOfAddress tx.Safe
      .ok (hashHex (keccak256 packed))
    else
      let typehash := bytesToHash32 (fromHexGo DomainSeparatorTypehash)
      let packed := typehash ++ wordOfU256 tx.Chain ++ wordOfAddress tx.Safe
      .ok (hashHex (keccak256 packed))

/-- `CalculateMessageHash` from `core/hashing.go`: pick the safe-tx
typehash (`SafeTxTypehashOld` for versions matching `< 1.0.0`), hash the
data bytes (`common.FromHex`), and keccak the packed static tuple
`(bytes32, address, uint256, bytes32, uint8, uint256, uint256, uint256,
address, address, uint256)`. -/
def CalculateMessageHash (tx : SafeTransaction) : Except String String :=
  match parseSemverGo tx.SafeVersion with
  | none => .error "Invalid Semantic Version"
  | some currentVersion =>
    let safeTxTypehashToUse :=
      if version100Check currentVersion then SafeTxTypehashOld else SafeTxTypehash
    let typehash := bytesToHash32 (fromHexGo safeTxTypehashToUse)
    let dataBytes := fromHexGo tx.Data
    let dataHash := keccak256 dataBytes
    let packed :=
      typehash ++ wordOfAddress tx.To ++ wordOfU256 tx.Value ++ dataHash ++
      wordOfU256 (tx.Operation % 256) ++ wordOfU256 tx.SafeTxGas ++
      wordOfU256 tx.BaseGas ++ wordOfU256 tx.GasPrice ++
      wordOfAddress tx.GasToken ++ wordOfAddress tx.RefundReceiver ++
      wordOfU256 tx.Nonce
    .ok (hashHex (keccak256 packed))

/-- `CalculateApproveHash` from `core/hashing.go`: domain hash and
message hash, parsed back to 32-byte values by `common.HexToHash`,
prefixed by the literal bytes `0x19 0x01`, and hashed. -/
def CalculateApproveHash (tx : SafeTransaction) : Except String String := do
  let domainHash ← CalculateDomainHash tx
  let messageHash ← CalculateMessageHash tx
  let domainHashBytes := bytesToHash32 (fromHexGo domainHash)
  let messageHashBytes := bytesToHash32 (fromHexGo messageHash)
  let concatData := [0x19, 0x01] ++ domainHashBytes ++ messageHashBytes
  pure (hashHex (keccak256 concatData))

/-! ## The verification facade (`core/verify.go`) -/

/-- `StripChainPrefix`: everything after the FIRST colon
(`strings.Index`), the input unchanged when it has no colon. -/
def StripChainPrefix (address : String) : String :=
  match address.data.findIdx? (· = ':') with
  | some idx => ⟨address.data.drop (idx + 1)⟩
  | none => address

/-- Error wrapping à la `fmt.Errorf("…: %w", err)`; a panic is not an
error return and unwinds unchanged. -/
def wrapGoErr (pre : String) : GoErr → GoErr
  | .err m => .err (pre ++ m)
  | .panic m => .panic m

/-- Go `uint64(tx.Chain)` conversion (wraps modulo 2^64). -/
def u64OfInt (z : Int) : Nat :=
  (z % (2 : Int) ^ 64).toNat

/-- `verifyTransactionInternal` from `core/verify.go`: strip chain
prefixes from both addresses, decode the calldata, compute the three
hashes, and assemble the result. -/
def verifyTransactionInternal (tx : SafeTransaction) (options : VerifyOptions) :
    Except GoErr VerificationResult :=
  let tx := { tx with To := StripChainPrefix tx.To, Safe := StripChainPrefix tx.Safe }
  match ParseTransactionData tx.To tx.Data (u64OfInt tx.Chain) options with
  | .error e => .error (wrapGoErr "failed to parse transaction data: " e)
  | .ok call =>
    let tx := { tx with Call := call }
    match CalculateDomainHash tx with
    | .error m => .error (.err ("failed to calculate domain hash: " ++ m))
    | .ok domainHash =>
      match CalculateMessageHash tx with
      | .error m => .error (.err ("failed to calculate message hash: " ++ m))
      | .ok messageHash =>
        match CalculateApproveHash tx with
        | .error m => .error (.err ("failed to calculate approve hash: " ++ m))
        | .ok approveHash =>
          .ok (.mk tx domainHash messageHash approveHash call none)

/-- `VerifyTransaction` from `core/verify.go`: when a nested approval is
present, verify the transaction as given first (the inner result), then
overwrite `To`, `Safe`, `Nonce`, `Operation`, `Data` from the nested
record, force `Value` to zero, verify that outer transaction, and attach
the inner result. -/
def VerifyTransaction (tx : SafeTransaction) (options : VerifyOptions) :
    Except GoErr VerificationResult :=
  let step : Except GoErr (Option VerificationResult × SafeTransaction) :=
    match tx.Nested with
    | some nested =>
      match verifyTransactionInternal tx options with
      | .error e => .error (wrapGoErr "failed to verify nested transaction: " e)
      | .ok inner =>
        .ok (some inner,
          { tx with To := nested.To, Safe := nested.Safe, Nonce := nested.Nonce,
                    Operation := nested.Operation, Value := 0, Data := nested.Data })
    | none => .ok (none, tx)
  match step with
  | .error e => .error e
  | .ok (nestedResult, tx1) =>
    match verifyTransactionInternal tx1 options with
    | .error e => .error e
    | .ok result => .ok (result.setNestedResult nestedResult)

/-! ## Supporting lemmas -/

theorem strData_append (s t : String) : (s ++ t).data = s.data ++ t.data := by
  cases s; cases t; rfl

theorem hexDigitVal_hexDigitChar (n : Nat) (h : n < 16) :
    hexDigitVal (hexDigitChar n) = some n := by
  interval_cases n <;> decide

theorem hexChars_length (bs : List Nat) : (hexChars bs).length = 2 * bs.length := by
  induction bs with
  | nil => rfl
  | cons b bs ih =>
    simp only [hexChars, List.length_cons, ih]
    omega

theorem hexPairsPartial_hexChars (bs : List Nat) (h : ∀ b ∈ bs, b < 256) :
    hexPairsPartial (hexChars bs) = bs := by
  induction bs with
  | nil => rfl
  | cons b bs ih =>
    have hb : b < 256 := h b (by simp)
    have h1 : b / 16 % 16 < 16 := Nat.mod_lt _ (by omega)
    have h2 : b % 16 < 16 := Nat.mod_lt _ (by omega)
    simp only [hexChars, hexPairsPartial, hexDigitVal_hexDigitChar _ h1,
      hexDigitVal_hexDigitChar _ h2]
    rw [ih (fun x hx => h x (by simp [hx]))]
    have : b / 16 % 16 * 16 + b % 16 = b := by omega
    rw [this]

theorem hexPairsStrict_hexChars (bs : List Nat) (h : ∀ b ∈ bs, b < 256) :
    hexPairsStrict (hexChars bs) = some bs := by
  induction bs with
  | nil => rfl
  | cons b bs ih =>
    have hb : b < 256 := h b (by simp)
    have h1 : b / 16 % 16 < 16 := Nat.mod_lt _ (by omega)
    have h2 : b % 16 < 16 := Nat.mod_lt _ (by omega)
    simp only [hexChars, hexPairsStrict, hexDigitVal_hexDigitChar _ h1,
      hexDigitVal_hexDigitChar _ h2]
    rw [ih (fun x hx => h x (by simp [hx]))]
    have : b / 16 % 16 * 16 + b % 16 = b := by omega
    simp [this]

/-- `hex.DecodeString` inverts `hex.EncodeToString` on genuine bytes. -/
theorem hexDecodeStrict_hexEncode (bs : List Nat) (h : ∀ b ∈ bs, b < 256) :
    hexDecodeStrict (hexEncode bs) = some bs := by
  simpa [hexDecodeStrict, hexEncode] using hexPairsStrict_hexChars bs h

/-- `common.FromHex` inverts `Hash.Hex()` on genuine bytes. -/
theorem fromHexGo_hashHex (bs : List Nat) (h : ∀ b ∈ bs, b < 256) :
    fromHexGo (hashHex bs) = bs := by
  have hdata : (hashHex bs).data = '0' :: 'x' :: hexChars bs := by
    have : hashHex bs = "0x" ++ hexEncode bs := rfl
    rw [this, strData_append]
    rfl
  simp only [fromHexGo, hdata]
  have hlen : (hexChars bs).length % 2 = 0 := by
    rw [hexChars_length]
    omega
  simp only [hlen]
  simpa using hexPairsPartial_hexChars bs h

theorem laneBytes_lt (x : Nat) : ∀ b ∈ laneBytes x, b < 256 := by
  simp only [laneBytes, List.mem_cons, List.not_mem_nil, or_false]
  rintro b (rfl | rfl | rfl | rfl | rfl | rfl | rfl | rfl) <;> omega

theorem keccak256_length (msg : List Nat) : (keccak256 msg).length = 32 := by
  simp [keccak256, laneBytes]

theorem keccak256_lt (msg : List Nat) : ∀ b ∈ keccak256 msg, b < 256 := by
  intro b hb
  simp only [keccak256, List.mem_append] at hb
  rcases hb with ((hb | hb) | hb) | hb <;> exact laneBytes_lt _ _ hb

theorem bytesToHash32_length32 (bs : List Nat) (h : bs.length = 32) :
    bytesToHash32 bs = bs := by
  simp [bytesToHash32, h]

/-- `HexToHash ∘ Hex` is the identity on keccak digests. -/
theorem hexToHash_hashHex_keccak (msg : List Nat) :
    bytesToHash32 (fromHexGo (hashHex (keccak256 msg))) = keccak256 msg := by
  rw [fromHexGo_hashHex _ (keccak256_lt msg), bytesToHash32_length32 _ (keccak256_length msg)]

/-! ## Claim C9: chain-prefix stripping (`StripChainPrefix`) -/

/-- Written from the spec's words for comparison: «take everything after
the LAST `:`» (an address without a colon is unchanged). -/
def stripChainPrefixSpec (address : String) : String :=
  ⟨(address.data.reverse.takeWhile (· ≠ ':')).reverse⟩

/-- A helper: `takeWhile` runs through a satisfying prefix and stops at
the first failing element. -/
theorem takeWhile_append_stop {α : Type} (p : α → Bool) (l1 l2 : List α) (x : α)
    (h1 : ∀ c ∈ l1, p c = true) (hx : p x = false) :
    List.takeWhile p (l1 ++ x :: l2) = l1 := by
  induction l1 with
  | nil => simp [List.takeWhile, hx]
  | cons c l1 ih =>
    have hc : p c = true := h1 c (by simp)
    simp only [List.cons_append, List.takeWhile_cons, hc, if_true]
    rw [ih (fun a ha => h1 a (by simp [ha]))]

theorem findIdx_colon_append (l1 l2 : List Char) (h : ∀ c ∈ l1, c ≠ ':') :
    List.findIdx? (· = ':') (l1 ++ ':' :: l2) = some l1.length := by
  induction l1 with
  | nil => simp [List.findIdx?_cons]
  | cons c l1 ih =>
    have hc : ¬(c = ':') := h c (by simp)
    simp only [List.cons_append, List.findIdx?_cons, decide_eq_true_eq, hc, if_false,
      List.findIdx?_succ, ih (fun x hx => h x (by simp [hx]))]
    rfl

/-- C9 (corrected): `StripChainPrefix` keeps everything after the FIRST
colon, not the last one; the two notions agree exactly when the address
carries at most one colon, and the Facade applies the stripping to both
the `to` and `safe` addresses. -/
theorem stripChainPrefix_first_colon :
    (∀ pre post : String, (∀ c ∈ pre.data, c ≠ ':') →
      StripChainPrefix (pre ++ ":" ++ post) = post) ∧
    (∀ s : String, (∀ c ∈ s.data, c ≠ ':') → StripChainPrefix s = s) ∧
    (∀ pre post : String, (∀ c ∈ pre.data, c ≠ ':') → (∀ c ∈ post.data, c ≠ ':') →
      stripChainPrefixSpec (pre ++ ":" ++ post) = post) ∧
    (∀ (tx : SafeTransaction) (options : VerifyOptions) (r : VerificationResult),
      verifyTransactionInternal tx options = .ok r →
      r.Transaction.To = StripChainPrefix tx.To ∧
      r.Transaction.Safe = StripChainPrefix tx.Safe) := by
  refine ⟨?_, ?_, ?_, ?_⟩
  · intro pre post h
    have hdata : (pre ++ ":" ++ post).data = pre.data ++ ':' :: post.data := by
      rw [strData_append, strData_append]
      simp
    simp only [StripChainPrefix, hdata, findIdx_colon_append _ _ h]
    have hdrop : (pre.data ++ ':' :: post.data).drop (pre.data.length + 1) = post.data := by
      have h2 : pre.data ++ ':' :: post.data = (pre.data ++ [':']) ++ post.data := by simp
      rw [h2]
      have hl : (pre.data ++ [':']).length = pre.data.length + 1 := by simp
      rw [← hl, List.drop_left]
    rw [hdrop]
  · intro s h
    have hnone : List.findIdx? (· = ':') s.data = none := by
      rw [List.findIdx?_eq_none_iff]
      intro c hc
      simpa using h c hc
    simp [StripChainPrefix, hnone]
  · intro pre post h1 h2
    have hdata : (pre ++ ":" ++ post).data = pre.data ++ ':' :: post.data := by
      rw [strData_append, strData_append]
      simp
    simp only [stripChainPrefixSpec, hdata]
    have hrev : (pre.data ++ ':' :: post.data).reverse =
        post.data.reverse ++ ':' :: pre.data.reverse := by
      simp
    rw [hrev, takeWhile_append_stop _ _ _ _
      (fun c hc => by simpa using h2 c (List.mem_reverse.mp hc)) (by simp),
      List.reverse_reverse]
  · intro tx options r h
    simp only [verifyTransactionInternal] at h
    split at h
    · exact absurd h (by simp)
    · split at h
      · exact absurd h (by simp)
      · split at h
        · exact absurd h (by simp)
        · split at h
          · exact absurd h (by simp)
          · simp only [Except.ok.injEq] at h
            subst h
            exact ⟨rfl, rfl⟩

/-- C9 counterexample: on an address with two colons the code keeps the
substring after the first colon, which differs from the spec's
«after the last colon». -/
theorem stripChainPrefix_counterexample :
    StripChainPrefix "eth:oeth:0xdead" = "oeth:0xdead" ∧
    stripChainPrefixSpec "eth:oeth:0xdead" = "0xdead" ∧
    StripChainPrefix "eth:oeth:0xdead" ≠ stripChainPrefixSpec "eth:oeth:0xdead" := by
  refine ⟨by decide, by decide, by decide⟩

/-- A transaction used to instantiate facade-level theorems. -/
def wtx9 : SafeTransaction :=
  { Safe := "oeth:0x2501c477D0A35545a387Aa4A3EEe4292A9a8B3F0", SafeVersion := "1.3.0",
    Chain := 10, To := "oeth:0x4200000000000000000000000000000000000042", Value := 0,
    Data := "", Operation := 0, SafeTxGas := 0, BaseGas := 0, GasPrice := 0,
    GasToken := "0x0000000000000000000000000000000000000000",
    RefundReceiver := "0x0000000000000000000000000000000000000000", Nonce := 3 }

theorem stripChainPrefix_first_colon_witness :
    StripChainPrefix ("eth" ++ ":" ++ "0x12") = "0x12" ∧
    (verifyTransactionInternal wtx9 ⟨false⟩).map (fun r => r.Transaction.To) =
      .ok (StripChainPrefix wtx9.To) := by
  constructor
  · exact stripChainPrefix_first_colon.1 "eth" "0x12" (by decide)
  · cases hV : verifyTransactionInternal wtx9 ⟨false⟩ with
    | error e =>
      have hok : (verifyTransactionInternal wtx9 ⟨false⟩).isOk = true := by rfl
      rw [hV] at hok
      simp [Except.isOk, Except.toBool] at hok
    | ok r =>
      have := (stripChainPrefix_first_colon.2.2.2 wtx9 ⟨false⟩ r hV).1
      simp [Except.map, this]

/-! ## SemVer precedence, written from the spec's words

The claims about the hash engine speak of «version ≤ 1.2.0» and
«version < 1.0.0».  The mathematical reading of those comparisons is
SemVer precedence (semver.org §11), under which a prerelease of a core
version precedes the release.  The Masterminds constraint check the code
uses differs from it exactly on prerelease versions. -/

/-- ASCII-lexicographic comparison of identifier characters. -/
def lexCmp : List Char → List Char → Ordering
  | [], [] => .eq
  | [], _ :: _ => .lt
  | _ :: _, [] => .gt
  | a :: as, b :: bs =>
    if a < b then .lt else if b < a then .gt else lexCmp as bs

/-- Compare two prerelease identifiers: all-numeric identifiers compare
numerically and precede alphanumeric ones; alphanumeric identifiers
compare in ASCII order. -/
def segCmp (a b : List Char) : Ordering :=
  if a.all Char.isDigit then
    if b.all Char.isDigit then
      if digitsVal a < digitsVal b then .lt
      else if digitsVal b < digitsVal a then .gt
      else .eq
    else .lt
  else if b.all Char.isDigit then .gt
  else lexCmp a b

/-- Compare dot-separated prerelease identifier lists; a strict prefix
precedes the longer list. -/
def preSegsCmp : List (List Char) → List (List Char) → Ordering
  | [], [] => .eq
  | [], _ :: _ => .lt
  | _ :: _, [] => .gt
  | a :: as, b :: bs =>
    match segCmp a b with
    | .eq => preSegsCmp as bs
    | o => o

/-- SemVer precedence: numeric core first; at equal cores a version with
a prerelease precedes one without; two prereleases compare
identifier-wise.  Build metadata is ignored. -/
def semverCmpSpec (v w : GoSemver) : Ordering :=
  match semverCoreCmp v w.major w.minor w.patch with
  | .eq =>
    if v.pre = "" then (if w.pre = "" then .eq else .gt)
    else if w.pre = "" then .lt
    else preSegsCmp (splitCharAux '.' [] v.pre.data) (splitCharAux '.' [] w.pre.data)
  | o => o

/-- `v ≤ w` in SemVer precedence. -/
def semverPrecLe (v w : GoSemver) : Bool :=
  semverCmpSpec v w ≠ .gt

/-- `v < w` in SemVer precedence. -/
def semverPrecLt (v w : GoSemver) : Bool :=
  semverCmpSpec v w = .lt

/-- On prerelease-free versions the Masterminds `<= 1.2.0` check
coincides with SemVer precedence; a prerelease version never matches. -/
theorem version120Check_eq (v : GoSemver) :
    version120Check v = ((v.pre == "") && semverPrecLe v ⟨1, 2, 0, "", ""⟩) := by
  by_cases hp : v.pre = ""
  · simp only [version120Check, hp, ne_eq, not_true_eq_false, if_false,
      semverPrecLe, semverCmpSpec]
    cases hc : semverCoreCmp v 1 2 0 <;> simp [hp, hc]
  · simp [version120Check, hp]

/-- Same for the `< 1.0.0` check. -/
theorem version100Check_eq (v : GoSemver) :
    version100Check v = ((v.pre == "") && semverPrecLt v ⟨1, 0, 0, "", ""⟩) := by
  by_cases hp : v.pre = ""
  · simp only [version100Check, hp, ne_eq, not_true_eq_false, if_false,
      semverPrecLt, semverCmpSpec]
    cases hc : semverCoreCmp v 1 0 0 <;> simp [hp, hc]
  · simp [version100Check, hp]

/-! ## Claim C2: the domain hash (`CalculateDomainHash`) -/

/-- The legacy (≤ 1.2.0) domain encoding: `(bytes32 legacyTypehash,
address safe)`, no chain id: two 32-byte words. -/
def domainEncodingLegacy (tx : SafeTransaction) : List Nat :=
  bytesToHash32 (fromHexGo DomainSeparatorTypehashOld) ++ wordOfAddress tx.Safe

/-- The current (> 1.2.0) domain encoding: `(bytes32 typehash,
uint256 chainId, address safe)`: three 32-byte words. -/
def domainEncodingCurrent (tx : SafeTransaction) : List Nat :=
  bytesToHash32 (fromHexGo DomainSeparatorTypehash) ++ wordOfU256 tx.Chain ++
    wordOfAddress tx.Safe

/-- C2 (corrected): for parseable versions WITHOUT a prerelease the
branch is exactly «precedence ≤ 1.2.0»; any version WITH a prerelease
takes the chain-id branch even when its precedence is below 1.2.0
(Masterminds constraints exclude prereleases).  Boundary: "1.2.0" uses
the legacy no-chainId encoding and "1.2.1" includes the chain id. -/
theorem calculateDomainHash_version_branch (tx : SafeTransaction) (v : GoSemver)
    (h : parseSemverGo tx.SafeVersion = some v) :
    (v.pre = "" ∧ semverPrecLe v ⟨1, 2, 0, "", ""⟩ = true →
      CalculateDomainHash tx = .ok (hashHex (keccak256 (domainEncodingLegacy tx)))) ∧
    (v.pre ≠ "" ∨ semverPrecLe v ⟨1, 2, 0, "", ""⟩ = false →
      CalculateDomainHash tx = .ok (hashHex (keccak256 (domainEncodingCurrent tx)))) ∧
    (tx.SafeVersion = "1.2.0" →
      CalculateDomainHash tx = .ok (hashHex (keccak256 (domainEncodingLegacy tx)))) ∧
    (tx.SafeVersion = "1.2.1" →
      CalculateDomainHash tx = .ok (hashHex (keccak256 (domainEncodingCurrent tx)))) := by
  have hbranch : ∀ b, version120Check v = b →
      CalculateDomainHash tx = .ok (hashHex (keccak256
        (if b then domainEncodingLegacy tx else domainEncodingCurrent tx))) := by
    intro b hb
    simp only [CalculateDomainHash, h, hb]
    cases b <;> rfl
  refine ⟨?_, ?_, ?_, ?_⟩
  · rintro ⟨h1, h2⟩
    have : version120Check v = true := by
      rw [version120Check_eq, h1]
      simp [h2]
    simpa using hbranch true this
  · intro hOr
    have : version120Check v = false := by
      rw [version120Check_eq]
      rcases hOr with h1 | h2
      · simp [h1]
      · simp [h2]
    simpa using hbranch false this
  · intro hv
    rw [hv] at h
    have hv120 : parseSemverGo "1.2.0" = some ⟨1, 2, 0, "", ""⟩ := by decide
    rw [hv120] at h
    injection h with h
    subst h
    simpa using hbranch true (by decide)
  · intro hv
    rw [hv] at h
    have hv121 : parseSemverGo "1.2.1" = some ⟨1, 2, 1, "", ""⟩ := by decide
    rw [hv121] at h
    injection h with h
    subst h
    simpa using hbranch false (by decide)

/-- Transaction with a prerelease version whose precedence is below
1.2.0. -/
def cex2tx : SafeTransaction :=
  { Safe := "0x2501c477D0A35545a387Aa4A3EEe4292A9a8B3F0", SafeVersion := "1.2.0-rc1",
    Chain := 1, To := "0x4200000000000000000000000000000000000042", Value := 0,
    Data := "", Operation := 0, SafeTxGas := 0, BaseGas := 0, GasPrice := 0,
    GasToken := "0x0000000000000000000000000000000000000000",
    RefundReceiver := "0x0000000000000000000000000000000000000000", Nonce := 0 }

/-- C2 counterexample: "1.2.0-rc1" parses, and its SemVer precedence is
≤ 1.2.0, yet the code produces the chain-id encoding, not the legacy
one (and the two digests differ). -/
theorem calculateDomainHash_prerelease_counterexample :
    parseSemverGo "1.2.0-rc1" = some ⟨1, 2, 0, "rc1", ""⟩ ∧
    semverPrecLe ⟨1, 2, 0, "rc1", ""⟩ ⟨1, 2, 0, "", ""⟩ = true ∧
    CalculateDomainHash cex2tx = .ok (hashHex (keccak256 (domainEncodingCurrent cex2tx))) ∧
    hashHex (keccak256 (domainEncodingCurrent cex2tx)) ≠
      hashHex (keccak256 (domainEncodingLegacy cex2tx)) := by
  refine ⟨by decide, by decide, by rfl, by decide⟩

/-- A plain transaction at the 1.2.0 boundary. -/
def wtx2 : SafeTransaction :=
  { Safe := "0x2501c477D0A35545a387Aa4A3EEe4292A9a8B3F0", SafeVersion := "1.2.0",
    Chain := 1, To := "0x4200000000000000000000000000000000000042", Value := 0,
    Data := "", Operation := 0, SafeTxGas := 0, BaseGas := 0, GasPrice := 0,
    GasToken := "0x0000000000000000000000000000000000000000",
    RefundReceiver := "0x0000000000000000000000000000000000000000", Nonce := 0 }

theorem calculateDomainHash_version_branch_witness :
    parseSemverGo wtx2.SafeVersion = some ⟨1, 2, 0, "", ""⟩ ∧
    CalculateDomainHash wtx2 = .ok (hashHex (keccak256 (domainEncodingLegacy wtx2))) := by
  refine ⟨by decide, ?_⟩
  exact (calculateDomainHash_version_branch wtx2 ⟨1, 2, 0, "", ""⟩ (by decide)).2.2.1 rfl

/-! ## Claim C3: the message hash (`CalculateMessageHash`) -/

/-- The safeTx static-tuple encoding with an explicit typehash constant:
`(bytes32, address to, uint256 value, bytes32 dataHash, uint8 operation,
uint256 safeTxGas, uint256 baseGas, uint256 gasPrice, address gasToken,
address refundReceiver, uint256 nonce)`, with
`dataHash = keccak256(data bytes)`. -/
def messageEncoding (th : String) (tx : SafeTransaction) : List Nat :=
  bytesToHash32 (fromHexGo th) ++ wordOfAddress tx.To ++ wordOfU256 tx.Value ++
    keccak256 (fromHexGo tx.Data) ++ wordOfU256 (tx.Operation % 256) ++
    wordOfU256 tx.SafeTxGas ++ wordOfU256 tx.BaseGas ++ wordOfU256 tx.GasPrice ++
    wordOfAddress tx.GasToken ++ wordOfAddress tx.RefundReceiver ++
    wordOfU256 tx.Nonce

/-- C3 (corrected): the legacy safe-tx typehash is selected exactly for
prerelease-FREE versions of precedence below 1.0.0; prerelease versions
always take the current typehash, even when their precedence is below
1.0.0.  Boundary: "1.0.0" uses the current constant, "0.9.9" the legacy
one; empty data hashes to keccak256 of the empty byte string. -/
theorem calculateMessageHash_structure (tx : SafeTransaction) (v : GoSemver)
    (h : parseSemverGo tx.SafeVersion = some v) :
    (v.pre = "" ∧ semverPrecLt v ⟨1, 0, 0, "", ""⟩ = true →
      CalculateMessageHash tx = .ok (hashHex (keccak256 (messageEncoding SafeTxTypehashOld tx)))) ∧
    (v.pre ≠ "" ∨ semverPrecLt v ⟨1, 0, 0, "", ""⟩ = false →
      CalculateMessageHash tx = .ok (hashHex (keccak256 (messageEncoding SafeTxTypehash tx)))) ∧
    (tx.SafeVersion = "1.0.0" →
      CalculateMessageHash tx = .ok (hashHex (keccak256 (messageEncoding SafeTxTypehash tx)))) ∧
    (tx.SafeVersion = "0.9.9" →
      CalculateMessageHash tx = .ok (hashHex (keccak256 (messageEncoding SafeTxTypehashOld tx)))) ∧
    (tx.Data = "" → keccak256 (fromHexGo tx.Data) = keccak256 ([] : List Nat)) := by
  have hbranch : ∀ b, version100Check v = b →
      CalculateMessageHash tx = .ok (hashHex (keccak256
        (messageEncoding (if b then SafeTxTypehashOld else SafeTxTypehash) tx))) := by
    intro b hb
    simp only [CalculateMessageHash, h, hb]
    cases b <;> rfl
  refine ⟨?_, ?_, ?_, ?_, ?_⟩
  · rintro ⟨h1, h2⟩
    have : version100Check v = true := by
      rw [version100Check_eq, h1]
      simp [h2]
    simpa using hbranch true this
  · intro hOr
    have : version100Check v = false := by
      rw [version100Check_eq]
      rcases hOr with h1 | h2
      · simp [h1]
      · simp [h2]
    simpa using hbranch false this
  · intro hv
    rw [hv] at h
    have hv100 : parseSemverGo "1.0.0" = some ⟨1, 0, 0, "", ""⟩ := by decide
    rw [hv100] at h
    injection h with h
    subst h
    simpa using hbranch false (by decide)
  · intro hv
    rw [hv] at h
    have hv099 : parseSemverGo "0.9.9" = some ⟨0, 9, 9, "", ""⟩ := by decide
    rw [hv099] at h
    injection h with h
    subst h
    simpa using hbranch true (by decide)
  · intro hd
    rw [hd]
    rfl

/-- Transaction with a prerelease version whose precedence is below
1.0.0. -/
def cex3tx : SafeTransaction :=
  { Safe := "0x2501c477D0A35545a387Aa4A3EEe4292A9a8B3F0", SafeVersion := "0.9.9-beta",
    Chain := 1, To := "0x4200000000000000000000000000000000000042", Value := 5,
    Data := "", Operation := 0, SafeTxGas := 0, BaseGas := 0, GasPrice := 0,
    GasToken := "0x0000000000000000000000000000000000000000",
    RefundReceiver := "0x0000000000000000000000000000000000000000", Nonce := 7 }

/-- C3 counterexample: "0.9.9-beta" parses and its SemVer precedence is
strictly below 1.0.0, so the claim's «legacy exactly when version <
1.0.0» demands the legacy typehash; the code selects the current one
(and the two digests differ). -/
theorem calculateMessageHash_prerelease_counterexample :
    parseSemverGo "0.9.9-beta" = some ⟨0, 9, 9, "beta", ""⟩ ∧
    semverPrecLt ⟨0, 9, 9, "beta", ""⟩ ⟨1, 0, 0, "", ""⟩ = true ∧
    CalculateMessageHash cex3tx = .ok (hashHex (keccak256 (messageEncoding SafeTxTypehash cex3tx))) ∧
    hashHex (keccak256 (messageEncoding SafeTxTypehash cex3tx)) ≠
      hashHex (keccak256 (messageEncoding SafeTxTypehashOld cex3tx)) := by
  refine ⟨by decide, by decide, by rfl, by decide⟩

theorem calculateMessageHash_structure_witness :
    parseSemverGo wtx2.SafeVersion = some ⟨1, 2, 0, "", ""⟩ ∧
    CalculateMessageHash wtx2 = .ok (hashHex (keccak256 (messageEncoding SafeTxTypehash wtx2))) ∧
    keccak256 (fromHexGo wtx2.Data) = keccak256 ([] : List Nat) := by
  have h := calculateMessageHash_structure wtx2 ⟨1, 2, 0, "", ""⟩ (by decide)
  exact ⟨by decide, h.2.1 (Or.inr (by decide)), h.2.2.2.2 rfl⟩

/-! ## Claim C4: the approval hash (`CalculateApproveHash`) -/

theorem bytesToHash32_length (bs : List Nat) : (bytesToHash32 bs).length = 32 := by
  simp only [bytesToHash32]
  split <;> rename_i h <;> simp <;> omega

/-- C4 (confirmed): when both the domain and the message hash succeed,
the approval hash is the keccak of the 66-byte concatenation
`0x19 ‖ 0x01 ‖ domainHash(32) ‖ messageHash(32)`, and the two 32-byte
values are exactly the domain and message digests (the hex round trip
through `HexToHash` is lossless). -/
theorem calculateApproveHash_concat (tx : SafeTransaction) (dh mh : String)
    (h1 : CalculateDomainHash tx = .ok dh) (h2 : CalculateMessageHash tx = .ok mh) :
    CalculateApproveHash tx = .ok (hashHex (keccak256
      (0x19 :: 0x01 :: (bytesToHash32 (fromHexGo dh) ++ bytesToHash32 (fromHexGo mh))))) ∧
    (∃ encD, dh = hashHex (keccak256 encD) ∧ bytesToHash32 (fromHexGo dh) = keccak256 encD) ∧
    (∃ encM, mh = hashHex (keccak256 encM) ∧ bytesToHash32 (fromHexGo mh) = keccak256 encM) ∧
    (bytesToHash32 (fromHexGo dh)).length = 32 ∧
    (bytesToHash32 (fromHexGo mh)).length = 32 ∧
    (0x19 :: 0x01 :: (bytesToHash32 (fromHexGo dh) ++ bytesToHash32 (fromHexGo mh))).length = 66 := by
  refine ⟨?_, ?_, ?_, bytesToHash32_length _, bytesToHash32_length _, ?_⟩
  · simp only [CalculateApproveHash, bind, Except.bind, h1, h2, pure, Except.pure]
    simp [List.append_assoc]
  · simp only [CalculateDomainHash] at h1
    split at h1
    · exact absurd h1 (by simp)
    · split at h1 <;>
      · simp only [Except.ok.injEq] at h1
        subst h1
        exact ⟨_, rfl, hexToHash_hashHex_keccak _⟩
  · simp only [CalculateMessageHash] at h2
    split at h2
    · exact absurd h2 (by simp)
    · simp only [Except.ok.injEq] at h2
      subst h2
      exact ⟨_, rfl, hexToHash_hashHex_keccak _⟩
  · simp [bytesToHash32_length]

theorem calculateApproveHash_concat_witness :
    CalculateApproveHash wtx2 = .ok (hashHex (keccak256 (0x19 :: 0x01 ::
      (bytesToHash32 (fromHexGo ((CalculateDomainHash wtx2).toOption.getD "")) ++
       bytesToHash32 (fromHexGo ((CalculateMessageHash wtx2).toOption.getD "")))))) :=
  (calculateApproveHash_concat wtx2 _ _ rfl rfl).1

/-! ## Claim C5: the nested approval assembler (`VerifyTransaction`) -/

/-- The outer transaction built from a nested approval record: `To`,
`Safe`, `Nonce`, `Operation`, `Data` overwritten, `Value` forced to
zero, everything else (including `SafeVersion` and `Chain`) kept. -/
def outerTransaction (tx : SafeTransaction) (nested : Nested) : SafeTransaction :=
  { tx with To := nested.To, Safe := nested.Safe, Nonce := nested.Nonce,
            Operation := nested.Operation, Value := 0, Data := nested.Data }

/-- C5 (corrected): with a nested approval, the inner transaction is
verified first, exactly as given; the outer transaction is the input
with only `to`, `safe`, `nonce`, `operation`, `data` overwritten and
`value` forced to zero; the returned result is the outer one with
`nestedResult` set to the inner result.  (The claim's «outer
approvalHash differs from the inner one» is NOT guaranteed — see the
counterexample where the nested record replicates the inner fields.) -/
theorem verifyTransaction_nested (tx : SafeTransaction) (nested : Nested)
    (options : VerifyOptions) (h : tx.Nested = some nested) :
    VerifyTransaction tx options =
      (match verifyTransactionInternal tx options with
       | .error e => .error (wrapGoErr "failed to verify nested transaction: " e)
       | .ok inner =>
         (verifyTransactionInternal (outerTransaction tx nested) options).map
           (fun r => r.setNestedResult (some inner))) ∧
    (∀ r, VerifyTransaction tx options = .ok r →
      ∃ inner, verifyTransactionInternal tx options = .ok inner ∧
        r.NestedResult = some inner ∧
        (verifyTransactionInternal (outerTransaction tx nested) options).map
          (fun q => q.setNestedResult (some inner)) = .ok r) := by
  have hmain : VerifyTransaction tx options =
      (match verifyTransactionInternal tx options with
       | .error e => .error (wrapGoErr "failed to verify nested transaction: " e)
       | .ok inner =>
         (verifyTransactionInternal (outerTransaction tx nested) options).map
           (fun r => r.setNestedResult (some inner))) := by
    obtain ⟨s, sv, c, t, val, d, op, stg, bg, gp, gt, rr, non, nest, call⟩ := tx
    replace h : nest = some nested := h
    subst h
    simp only [VerifyTransaction, outerTransaction]
    cases hI : verifyTransactionInternal
        { Safe := s, SafeVersion := sv, Chain := c, To := t, Value := val, Data := d,
          Operation := op, SafeTxGas := stg, BaseGas := bg, GasPrice := gp, GasToken := gt,
          RefundReceiver := rr, Nonce := non, Nested := some nested, Call := call } options with
    | error e => rfl
    | ok inner =>
      dsimp only
      cases hO : verifyTransactionInternal
          { Safe := nested.Safe, SafeVersion := sv, Chain := c, To := nested.To, Value := 0,
            Data := nested.Data, Operation := nested.Operation, SafeTxGas := stg, BaseGas := bg,
            GasPrice := gp, GasToken := gt, RefundReceiver := rr, Nonce := nested.Nonce,
            Nested := some nested, Call := call } options with
      | error e => rfl
      | ok q => rfl
  refine ⟨hmain, ?_⟩
  intro r hr
  rw [hmain] at hr
  cases hInner : verifyTransactionInternal tx options with
  | error e =>
    rw [hInner] at hr
    exact absurd hr (by simp)
  | ok inner =>
    rw [hInner] at hr
    refine ⟨inner, rfl, ?_, ?_⟩
    · cases hOuter : verifyTransactionInternal (outerTransaction tx nested) options with
      | error e =>
        rw [hOuter] at hr
        exact absurd hr (by simp [Except.map])
      | ok q =>
        rw [hOuter] at hr
        simp only [Except.map, Except.ok.injEq] at hr
        subst hr
        cases q
        rfl
    · exact hr

/-- A transaction whose nested record replicates its own fields (with
zero value), so the substituted outer transaction coincides with the
inner one. -/
def cex5 : SafeTransaction :=
  { Safe := "0x847B5c174615B1B7fDF770882256e2D3E95b9D92", SafeVersion := "1.3.0",
    Chain := 1, To := "0x4200000000000000000000000000000000000042", Value := 0,
    Data := "", Operation := 0, SafeTxGas := 0, BaseGas := 0, GasPrice := 0,
    GasToken := "0x0000000000000000000000000000000000000000",
    RefundReceiver := "0x0000000000000000000000000000000000000000", Nonce := 9,
    Nested := some
      { Safe := "0x847B5c174615B1B7fDF770882256e2D3E95b9D92", SafeVersion := "1.3.0",
        Nonce := 9, Data := "", Operation := 0,
        To := "0x4200000000000000000000000000000000000042" } }

/-- C5 counterexample: verification succeeds, the nested result is
present, and the outer approval hash EQUALS the inner transaction's own
approval hash, contradicting the claimed inequality. -/
theorem verifyTransaction_nested_counterexample :
    (VerifyTransaction cex5 ⟨false⟩).isOk = true ∧
    (VerifyTransaction cex5 ⟨false⟩).map (fun r => r.NestedResult.isSome) = .ok true ∧
    (VerifyTransaction cex5 ⟨false⟩).map
        (fun r => r.NestedResult.map VerificationResult.ApproveHash) =
      (VerifyTransaction cex5 ⟨false⟩).map (fun r => some r.ApproveHash) := by
  exact ⟨rfl, rfl, rfl⟩

theorem verifyTransaction_nested_witness :
    VerifyTransaction cex5 ⟨false⟩ =
      (match verifyTransactionInternal cex5 ⟨false⟩ with
       | .error e => .error (wrapGoErr "failed to verify nested transaction: " e)
       | .ok inner =>
         (verifyTransactionInternal
            (outerTransaction cex5
              { Safe := "0x847B5c174615B1B7fDF770882256e2D3E95b9D92", SafeVersion := "1.3.0",
                Nonce := 9, Data := "", Operation := 0,
                To := "0x4200000000000000000000000000000000000042" }) ⟨false⟩).map
           (fun r => r.setNestedResult (some inner))) :=
  (verifyTransaction_nested cex5 _ ⟨false⟩ rfl).1

/-- **C1.** Corrected form.  On an allow-listed batching contract a
selector that is entirely unknown to the function registry does NOT fail
closed: `ParseTransactionData` returns an "unknown" node carrying the raw
calldata, exactly as for any other contract (first conjunct) — the
multicall branch is only reached after the selector resolves in the
registry.  The fail-closed error of the claim arises only when a
REGISTERED function is sent to a batching contract that does not support
it, e.g. the registered `aggregate3` selector `0x0cba7add` sent to the
Safe multisend contract (second conjunct). -/
theorem parseTransactionData_unknown_selector_allowlisted
    (toA data : String) (chainID : Nat) (options : VerifyOptions)
    (hAllow : (MulticallAddresses chainID).contains (goToLower toA) = true)
    (hLen : 8 ≤ (goTrimPrefix data "0x").length)
    (hSel : lookupMap KnownFunctions ⟨(goTrimPrefix data "0x").data.take 8⟩ = none) :
    (ParseTransactionData toA data chainID options =
      .ok (.mk toA
        (match GetKnownContract (goToLower toA) chainID with
         | some ci => ci.Name
         | none => "") "unknown" "" data none [] false)) ∧
    ParseTransactionData SafeMultisendAddress "0x0cba7add" MainnetChainID ⟨false⟩ =
      .error (.err ("unsupported function " ++ Aggregate3Sig ++
        " for Safe Multisend contract")) := by
  constructor
  · have h0 : ¬ (goTrimPrefix data "0x").length = 0 := by omega
    have h8 : ¬ (goTrimPrefix data "0x").length < 8 := by omega
    simp only [ParseTransactionData, ParseTransactionDataF]
    rw [if_neg h0, if_neg h8, hSel]
  · rfl

/-- A successful `Option.mapM` maps every output element back to an input
element. -/
lemma mapM_option_mem {α β : Type} (f : α → Option β) (l : List α) (out : List β)
    (h : l.mapM f = some out) : ∀ b ∈ out, ∃ a ∈ l, f a = some b := by
  rw [← List.mapM'_eq_mapM] at h
  induction l generalizing out with
  | nil =>
    simp only [List.mapM', Option.pure_def, Option.some.injEq] at h
    subst h
    intro b hb
    exact absurd hb (List.not_mem_nil b)
  | cons a as ih =>
    simp only [List.mapM', Option.bind_eq_bind] at h
    cases hfa : f a with
    | none => rw [hfa] at h; simp at h
    | some b0 =>
      rw [hfa, Option.some_bind] at h
      cases hms : List.mapM' f as with
      | none => rw [hms] at h; simp at h
      | some bs =>
        rw [hms, Option.some_bind] at h
        simp only [Option.pure_def, Option.some.injEq] at h
        subst h
        intro b hb
        cases List.mem_cons.mp hb with
        | inl hb =>
          exact ⟨a, List.mem_cons_self a as, by rw [hb]; exact hfa⟩
        | inr hb =>
          obtain ⟨a', ha', hfa'⟩ := ih bs hms b hb
          exact ⟨a', List.mem_cons_of_mem a ha', hfa'⟩

/-- A hit in the Go-map model is a membership. -/
lemma lookupMap_mem {α : Type} (m : List (String × α)) (k : String) (v : α)
    (h : lookupMap m k = some v) : (k, v) ∈ m := by
  simp only [lookupMap] at h
  cases hf : m.find? (fun p => p.1 == k) with
  | none => rw [hf] at h; simp at h
  | some q =>
    rw [hf] at h
    simp only [Option.map_some', Option.some.injEq] at h
    have hm := List.mem_of_find?_eq_some hf
    have hk := List.find?_some hf
    obtain ⟨k', v'⟩ := q
    have hk' : k' = k := by simpa using hk
    have hv' : v' = v := h
    subst hk'
    subst hv'
    exact hm

/-- Decoding a `uint` type always produces a `vuint` value. -/
lemma toGoType_uint_shape (bits : Nat) (out : List Nat) (idx : Nat) (v : AbiVal)
    (h : toGoType (.uint bits) out idx = some v) : ∃ n, v = .vuint n := by
  have h' : toGoTypeBase (.uint bits) out idx = some v := h
  simp only [toGoTypeBase] at h'
  split at h'
  · exact absurd h' (by simp)
  · exact ⟨_, (Option.some.inj h').symm⟩

/-- Every entry produced by `unpackArgs` carries the name of one of the
inputs and a value decoded by `toGoType` at that input's type. -/
lemma unpackArgs_types (inputs : List (String × AbiType)) (bs : List Nat)
    (args : List (String × AbiVal)) (h : unpackArgs inputs bs = some args) :
    ∀ q ∈ args, ∃ p ∈ inputs, q.1 = p.1 ∧ ∃ i, toGoType p.2 bs (i * 32) = some q.2 := by
  intro q hq
  simp only [unpackArgs] at h
  split at h
  · split at h
    · injection h with h
      subst h
      exact absurd hq (List.not_mem_nil q)
    · exact absurd h (by simp)
  · obtain ⟨ip, hip, hf⟩ := mapM_option_mem _ _ _ h q hq
    obtain ⟨i, p⟩ := ip
    have hf' : (toGoType p.2 bs (i * 32)).map (fun v => (p.1, v)) = some q := hf
    cases hv : toGoType p.2 bs (i * 32) with
    | none => rw [hv] at hf'; simp at hf'
    | some v =>
      rw [hv] at hf'
      simp only [Option.map_some', Option.some.injEq] at hf'
      subst hf'
      exact ⟨p, List.snd_mem_of_mem_enum hip, rfl, i, hv⟩

/-- The per-argument post-processing never changes a `vuint`-valued entry
of the map whose key the decoder later reads back: an entry of key
`"amount"` in the flattened map either comes from the argument itself
(whose value is then constrained by its input type) or carries an indexed
key containing `[`. -/
lemma convertTopArg_amount (p q : String × AbiVal) (hq : q ∈ convertTopArg p)
    (hk : q.1 = "amount") (hp : p.1 = "amount" → ∃ n, p.2 = .vuint n) :
    ∃ n, q.2 = .vuint n := by
  obtain ⟨k, v⟩ := p
  cases v with
  | varr elems =>
    simp only [convertTopArg, List.mem_cons] at hq
    rcases hq with rfl | hq
    · obtain ⟨n, hn⟩ := hp hk
      exact AbiVal.noConfusion hn
    · rw [List.mem_map] at hq
      obtain ⟨⟨i, e⟩, hmem, rfl⟩ := hq
      have hk' : k ++ "[" ++ toString i ++ "]" = "amount" := hk
      have h0 : '[' ∈ ("[" : String).data := by decide
      have h1 : '[' ∈ (k ++ "[" ++ toString i ++ "]").data := by
        rw [strData_append, strData_append, strData_append]
        exact List.mem_append_left _ (List.mem_append_left _ (List.mem_append_right _ h0))
      rw [hk'] at h1
      exact absurd h1 (by decide)
  | vbytes bs =>
    simp only [convertTopArg, List.mem_singleton] at hq
    subst hq
    obtain ⟨n, hn⟩ := hp hk
    exact AbiVal.noConfusion hn
  | vfixed bs =>
    simp only [convertTopArg, List.mem_singleton] at hq
    subst hq
    obtain ⟨n, hn⟩ := hp hk
    exact AbiVal.noConfusion hn
  | vuint n =>
    simp only [convertTopArg, List.mem_singleton] at hq
    subst hq
    exact ⟨n, rfl⟩
  | vaddr a =>
    simp only [convertTopArg, List.mem_singleton] at hq
    subst hq
    exact hp hk
  | vbool b =>
    simp only [convertTopArg, List.mem_singleton] at hq
    subst hq
    exact hp hk
  | vstrBytes bs =>
    simp only [convertTopArg, List.mem_singleton] at hq
    subst hq
    exact hp hk
  | vstr s =>
    simp only [convertTopArg, List.mem_singleton] at hq
    subst hq
    exact hp hk
  | vtuple fields =>
    simp only [convertTopArg, List.mem_singleton] at hq
    subst hq
    exact hp hk

/-- Every registered function types any input named `amount` as
`uint256`. -/
lemma registry_amount_uint :
    ∀ fi ∈ KnownFunctions.map (fun p => p.2), ∀ p ∈ fi.ABI.inputs,
      p.1 = "amount" → p.2 = .uint 256 := by decide

/-- If every `amount`-named input of the method is `uint256`, the value
stored under `"amount"` by `parseArguments` is a `vuint`. -/
lemma parseArguments_amount_vuint (m : AbiMethod) (cd : String)
    (args : List (String × AbiVal)) (h : parseArguments m cd = some args)
    (hm : ∀ p ∈ m.inputs, p.1 = "amount" → p.2 = .uint 256)
    (v : AbiVal) (hl : lookupMap args "amount" = some v) : ∃ n, v = .vuint n := by
  simp only [parseArguments, Option.bind_eq_bind] at h
  cases hdec : hexDecodeStrict (goTrimPrefix cd "0x") with
  | none => rw [hdec] at h; exact absurd h (by simp)
  | some bytes =>
    rw [hdec, Option.some_bind] at h
    by_cases hlen : bytes.length < 4
    · rw [if_pos hlen] at h; exact absurd h (by simp)
    · rw [if_neg hlen] at h
      cases hup : unpackArgs m.inputs (bytes.drop 4) with
      | none => rw [hup] at h; exact absurd h (by simp)
      | some args0 =>
        rw [hup, Option.some_bind] at h
        injection h with h
        subst h
        have hmem : ("amount", v) ∈ (args0.map convertTopArg).flatten :=
          lookupMap_mem _ _ _ hl
        rw [List.mem_flatten] at hmem
        obtain ⟨chunk, hchunk, hqmem⟩ := hmem
        rw [List.mem_map] at hchunk
        obtain ⟨p, hpmem, rfl⟩ := hchunk
        refine convertTopArg_amount p ("amount", v) hqmem rfl ?_
        intro hpk
        obtain ⟨inp, hinp, hkey, i, hgo⟩ := unpackArgs_types _ _ _ hup p hpmem
        have hity : inp.2 = .uint 256 := hm inp hinp (by rw [← hkey]; exact hpk)
        rw [hity] at hgo
        exact toGoType_uint_shape _ _ _ _ hgo

/-- `adjustTokenAmount` succeeds whenever the `"amount"` entry (if any)
is a `vuint` — the only panic is the `*big.Int` type assertion. -/
lemma adjustTokenAmount_ok (ci? : Option ContractInfo) (name : String)
    (args : List (String × AbiVal))
    (hty : ∀ v, lookupMap args "amount" = some v → ∃ n, v = .vuint n) :
    ∃ args2, adjustTokenAmount ci? name args = .ok args2 := by
  simp only [adjustTokenAmount]
  cases ci? with
  | none => exact ⟨args, rfl⟩
  | some ci =>
    dsimp only
    split
    · cases hl : lookupMap args "amount" with
      | none => exact ⟨args, rfl⟩
      | some v =>
        obtain ⟨n, rfl⟩ := hty v hl
        exact ⟨_, rfl⟩
    · exact ⟨args, rfl⟩

/-- **C8.** Corrected form.  On a target that is not on the batching
allow-list, `ParseTransactionData` indeed never returns an error (first
conjunct — the only error paths are the multicall branch, unreachable by
the allow-list hypothesis, and the `*big.Int` assertion panic, excluded
because every registered `amount` input is `uint256`).  A short calldata
or an unknown selector yields the "unknown" node with `RawData` equal to
the calldata as given (third conjunct).  But for EMPTY calldata the node
carries `"0x" ++ data`, not the calldata as given: input `"0x"` produces
`RawData = "0x0x"` (second conjunct; see the counterexample). -/
theorem parseTransactionData_nonallowlisted
    (toA data : String) (chainID : Nat) (options : VerifyOptions)
    (hAllow : (MulticallAddresses chainID).contains (goToLower toA) = false) :
    (∃ cd, ParseTransactionData toA data chainID options = .ok cd) ∧
    ((goTrimPrefix data "0x").length = 0 →
      ParseTransactionData toA data chainID options =
        .ok (.mk toA
          (match GetKnownContract (goToLower toA) chainID with
           | some ci => ci.Name
           | none => "") "unknown" "" ("0x" ++ data) none [] false)) ∧
    ((goTrimPrefix data "0x").length ≠ 0 →
      ((goTrimPrefix data "0x").length < 8 ∨
        lookupMap KnownFunctions ⟨(goTrimPrefix data "0x").data.take 8⟩ = none) →
      ParseTransactionData toA data chainID options =
        .ok (.mk toA
          (match GetKnownContract (goToLower toA) chainID with
           | some ci => ci.Name
           | none => "") "unknown" "" data none [] false)) := by
  refine ⟨?_, ?_, ?_⟩
  · simp only [ParseTransactionData, ParseTransactionDataF]
    by_cases h0 : (goTrimPrefix data "0x").length = 0
    · rw [if_pos h0]; exact ⟨_, rfl⟩
    · rw [if_neg h0]
      by_cases h8 : (goTrimPrefix data "0x").length < 8
      · rw [if_pos h8]; exact ⟨_, rfl⟩
      · rw [if_neg h8]
        cases hsel : lookupMap KnownFunctions ⟨(goTrimPrefix data "0x").data.take 8⟩ with
        | none => exact ⟨_, rfl⟩
        | some fi =>
          dsimp only
          cases hargs : parseArguments fi.ABI ("0x" ++ goTrimPrefix data "0x") with
          | none => exact ⟨_, rfl⟩
          | some args =>
            dsimp only
            have hfi : fi ∈ KnownFunctions.map (fun p => p.2) :=
              List.mem_map.mpr ⟨_, lookupMap_mem _ _ _ hsel, rfl⟩
            have hty : ∀ v, lookupMap args "amount" = some v → ∃ n, v = .vuint n :=
              fun v hv => parseArguments_amount_vuint fi.ABI _ args hargs
                (registry_amount_uint fi hfi) v hv
            obtain ⟨args2, hadj⟩ :=
              adjustTokenAmount_ok (GetKnownContract (goToLower toA) chainID) fi.Name args hty
            rw [hadj]
            dsimp only
            split
            · rename_i hc
              exact absurd hc.1 (by rw [hAllow]; decide)
            · exact ⟨_, rfl⟩
  · intro h0
    simp only [ParseTransactionData, ParseTransactionDataF]
    rw [if_pos h0]
  · intro h0 hcase
    simp only [ParseTransactionData, ParseTransactionDataF]
    rw [if_neg h0]
    by_cases h8 : (goTrimPrefix data "0x").length < 8
    · rw [if_pos h8]
    · rcases hcase with h8' | hsel
      · exact absurd h8' h8
      · rw [if_neg h8, hsel]

/-- **C8** counterexample to the frozen claim: for the empty calldata
`"0x"` on a non-allow-listed target the node's `RawData` is `"0x0x"` —
the decoder prepends another `"0x"` — not the calldata as given. -/
theorem parseTransactionData_nonallowlisted_counterexample :
    (MulticallAddresses MainnetChainID).contains (goToLower "0xabc") = false ∧
    ParseTransactionData "0xabc" "0x" MainnetChainID ⟨false⟩ =
      .ok (.mk "0xabc" "" "unknown" "" "0x0x" none [] false) ∧
    "0x0x" ≠ "0x" :=
  ⟨by decide, rfl, by decide⟩

/-- **C8** witness: the corrected theorem applied to a plain target with
the 2-byte calldata `0x1234` (shorter than a selector). -/
theorem parseTransactionData_nonallowlisted_witness :
    ((MulticallAddresses MainnetChainID).contains (goToLower "0xabc") = false) ∧
    ((∃ cd, ParseTransactionData "0xabc" "0x1234" MainnetChainID ⟨false⟩ = .ok cd) ∧
     ((goTrimPrefix "0x1234" "0x").length = 0 →
       ParseTransactionData "0xabc" "0x1234" MainnetChainID ⟨false⟩ =
         .ok (.mk "0xabc"
           (match GetKnownContract (goToLower "0xabc") MainnetChainID with
            | some ci => ci.Name
            | none => "") "unknown" "" ("0x" ++ "0x1234") none [] false)) ∧
     ((goTrimPrefix "0x1234" "0x").length ≠ 0 →
       ((goTrimPrefix "0x1234" "0x").length < 8 ∨
         lookupMap KnownFunctions ⟨(goTrimPrefix "0x1234" "0x").data.take 8⟩ = none) →
       ParseTransactionData "0xabc" "0x1234" MainnetChainID ⟨false⟩ =
         .ok (.mk "0xabc"
           (match GetKnownContract (goToLower "0xabc") MainnetChainID with
            | some ci => ci.Name
            | none => "") "unknown" "" "0x1234" none [] false))) :=
  ⟨by decide,
   parseTransactionData_nonallowlisted "0xabc" "0x1234" MainnetChainID ⟨false⟩ (by decide)⟩

/-- **C1** counterexample to the frozen claim: the Safe multisend address
is on mainnet's batching allow-list, yet the unknown selector
`0xdeadbeef` decodes to an "unknown" node with the raw calldata — no
fatal error is raised for the recursive decode. -/
theorem parseTransactionData_unknown_selector_counterexample :
    (MulticallAddresses MainnetChainID).contains (goToLower SafeMultisendAddress) = true ∧
    ParseTransactionData SafeMultisendAddress "0xdeadbeef00" MainnetChainID ⟨false⟩ =
      .ok (.mk SafeMultisendAddress "GNOSIS SAFE MULTISEND" "unknown" "" "0xdeadbeef00"
        none [] false) :=
  ⟨by decide, rfl⟩

/-- **C1** witness: the corrected theorem applied to the mainnet Safe
multisend contract with the unknown selector `0xdeadbeef`. -/
theorem parseTransactionData_unknown_selector_allowlisted_witness :
    ((MulticallAddresses MainnetChainID).contains (goToLower SafeMultisendAddress) = true) ∧
    (8 ≤ (goTrimPrefix "0xdeadbeef00" "0x").length) ∧
    (lookupMap KnownFunctions ⟨(goTrimPrefix "0xdeadbeef00" "0x").data.take 8⟩ = none) ∧
    ((ParseTransactionData SafeMultisendAddress "0xdeadbeef00" MainnetChainID ⟨false⟩ =
      .ok (.mk SafeMultisendAddress
        (match GetKnownContract (goToLower SafeMultisendAddress) MainnetChainID with
         | some ci => ci.Name
         | none => "") "unknown" "" "0xdeadbeef00" none [] false)) ∧
     ParseTransactionData SafeMultisendAddress "0x0cba7add" MainnetChainID ⟨false⟩ =
       .error (.err ("unsupported function " ++ Aggregate3Sig ++
         " for Safe Multisend contract"))) :=
  ⟨by decide, by decide, by decide,
   parseTransactionData_unknown_selector_allowlisted SafeMultisendAddress "0xdeadbeef00"
     MainnetChainID ⟨false⟩ (by decide) (by decide) (by decide)⟩

/-- One well-formed byte-packed multi-send record:
`operation(1) | to(20) | value(32) | length(32) | data(length)` with the
length field taken from the data itself. -/
def msRecord (op : Nat) (toB : List Nat) (val : Nat) (payload : List Nat) : List Nat :=
  op :: (toB ++ beBytes 32 val ++ beBytes 32 payload.length ++ payload)

/-- A multi-send record whose header declares `declLen` data bytes over an
arbitrary trailing byte list (used for malformed streams). -/
def msRecordDecl (op : Nat) (toB : List Nat) (val declLen : Nat)
    (payload : List Nat) : List Nat :=
  op :: (toB ++ beBytes 32 val ++ beBytes 32 declLen ++ payload)

/-- `multiSend` calldata over a packed record stream: the `8d80ff0a`
selector followed by the ABI encoding of the single `bytes` argument. -/
def msCalldata (stream : List Nat) : String :=
  "0x8d80ff0a" ++ hexEncode (beBytes 32 32 ++ beBytes 32 stream.length ++ stream)

def msAddr1 : List Nat := List.replicate 19 0 ++ [1]
def msAddr2 : List Nat := List.replicate 19 0 ++ [2]

/-- **C6.** A stream of two well-formed records decodes to exactly the two
subcalls in record order (first conjunct); a stream truncated inside the
second record's 85-byte fixed header stops cleanly with one subcall
(second conjunct); a moderate declared-length overrun also stops cleanly
(third conjunct).  But the claim's "declared data length exceeding the
remaining bytes stops cleanly" FAILS for large declared lengths: a
declared length of `2^63` survives `big.Int.Uint64()`, the `int`
conversion makes it negative, the `pos+int(length) > len(data)` guard is
bypassed, and the slice expression panics (fourth conjunct) — a code bug
on adversarial input. -/
theorem parseTransactionData_multisend_records :
    (ParseTransactionData SafeMultisendAddress
        (msCalldata (msRecord 0 msAddr1 0 [] ++ msRecord 0 msAddr2 0 [0xde, 0xad]))
        MainnetChainID ⟨false⟩ =
      .ok (.mk SafeMultisendAddress "GNOSIS SAFE MULTISEND" "multiSend" "" "" none
        [.mk "0x0000000000000000000000000000000000000001" "" "unknown" "" "0x0x"
           none [] false,
         .mk "0x0000000000000000000000000000000000000002" "" "unknown" "" "0xdead"
           none [] false]
        false)) ∧
    (ParseTransactionData SafeMultisendAddress
        (msCalldata (msRecord 0 msAddr1 0 [] ++ (msRecord 0 msAddr2 0 [0xde, 0xad]).take 40))
        MainnetChainID ⟨false⟩ =
      .ok (.mk SafeMultisendAddress "GNOSIS SAFE MULTISEND" "multiSend" "" "" none
        [.mk "0x0000000000000000000000000000000000000001" "" "unknown" "" "0x0x"
           none [] false]
        false)) ∧
    (ParseTransactionData SafeMultisendAddress
        (msCalldata (msRecord 0 msAddr1 0 [] ++ msRecordDecl 0 msAddr2 0 5 [0xde]))
        MainnetChainID ⟨false⟩ =
      .ok (.mk SafeMultisendAddress "GNOSIS SAFE MULTISEND" "multiSend" "" "" none
        [.mk "0x0000000000000000000000000000000000000001" "" "unknown" "" "0x0x"
           none [] false]
        false)) ∧
    ParseTransactionData SafeMultisendAddress
        (msCalldata (msRecord 0 msAddr1 0 [] ++ msRecordDecl 0 msAddr2 0 (2 ^ 63) []))
        MainnetChainID ⟨false⟩ =
      .error (.panic "runtime error: slice bounds out of range") :=
  ⟨rfl, rfl, rfl, rfl⟩

/-- `beBytes` produces exactly `width` bytes. -/
lemma beBytes_length (w n : Nat) : (beBytes w n).length = w := by
  induction w generalizing n with
  | zero => rfl
  | succ w ih =>
    have hstep : beBytes (w + 1) n = beBytes w (n / 256) ++ [n % 256] := rfl
    rw [hstep]
    simp [ih]

/-- Appending one byte to a big-endian representation. -/
lemma natOfBE_append_single (l : List Nat) (b : Nat) :
    natOfBE (l ++ [b]) = natOfBE l * 256 + b % 256 := by
  induction l with
  | nil => simp [natOfBE]
  | cons c l ih =>
    have hlen2 : (l ++ [b]).length = l.length + 1 := by simp
    calc natOfBE ((c :: l) ++ [b])
        = c % 256 * 256 ^ (l ++ [b]).length + natOfBE (l ++ [b]) := rfl
      _ = c % 256 * 256 ^ (l.length + 1) + (natOfBE l * 256 + b % 256) := by rw [hlen2, ih]
      _ = (c % 256 * 256 ^ l.length + natOfBE l) * 256 + b % 256 := by ring

/-- Round trip: reading back a fixed-width big-endian encoding. -/
lemma natOfBE_beBytes (w n : Nat) : natOfBE (beBytes w n) = n % 256 ^ w := by
  induction w generalizing n with
  | zero =>
    rw [show beBytes 0 n = [] from rfl]
    simp [natOfBE, Nat.mod_one]
  | succ w ih =>
    have hstep : beBytes (w + 1) n = beBytes w (n / 256) ++ [n % 256] := rfl
    rw [hstep, natOfBE_append_single, ih]
    have hpow : 256 ^ (w + 1) = 256 * 256 ^ w := by ring
    rw [hpow, Nat.mod_mul]
    omega

/-- `wrap64` is the identity inside the signed 64-bit range. -/
lemma wrap64_eq_self (z : Int) (h1 : -(2 ^ 63) ≤ z) (h2 : z < 2 ^ 63) :
    wrap64 z = z := by
  simp only [wrap64]
  omega

/-- The 20 bytes of the Safe multisend address. -/
def msAddrMS : List Nat :=
  (hexDecodeStrict (goToLower (goTrimPrefix SafeMultisendAddress "0x"))).getD []

/-- **C7.** The asymmetry between the two batching formats: in the
struct-array aggregate loop an element whose recursive decode fails with
a Go `error` is skipped and the loop continues on the remaining elements
(first conjunct), while in the byte-packed multi-send loop a failing
recursive decode of the first record's subcall propagates as an error
aborting the entire batch, whatever bytes follow (second conjunct). -/
theorem parseMulticall_element_failure_asymmetry
    (parse : String → String → Except GoErr CallData)
    (c : Call3) (rest : List Call3) (m : String)
    (op val : Nat) (toB payload restBytes : List Nat) (e : GoErr)
    (hAgg : parse (addressHex c.target) ("0x" ++ hexEncode c.callData) = .error (.err m))
    (htoB : toB.length = 20) (hpay : payload.length + 85 < 2 ^ 63)
    (hMs : parse (addressHex (bytesToAddress toB)) ("0x" ++ hexEncode payload) = .error e) :
    aggLoop parse (c :: rest) = aggLoop parse rest ∧
    msLoop parse (msRecord op toB val payload ++ restBytes) = .error e := by
  constructor
  · simp only [aggLoop, hAgg]
  · have hp64n : payload.length < 2 ^ 63 := by omega
    have hlen : (msRecord op toB val payload ++ restBytes).length =
        85 + payload.length + restBytes.length := by
      simp [msRecord, beBytes_length, htoB, List.length_append] <;> omega
    have e1 : msRecord op toB val payload ++ restBytes =
        [op] ++ (toB ++ (beBytes 32 val ++ (beBytes 32 payload.length ++
          (payload ++ restBytes)))) := by
      simp [msRecord, List.append_assoc]
    have e2 : msRecord op toB val payload ++ restBytes =
        ([op] ++ (toB ++ beBytes 32 val)) ++ (beBytes 32 payload.length ++
          (payload ++ restBytes)) := by
      simp [msRecord, List.append_assoc]
    have e3 : msRecord op toB val payload ++ restBytes =
        (([op] ++ (toB ++ beBytes 32 val)) ++ beBytes 32 payload.length) ++
          (payload ++ restBytes) := by
      simp [msRecord, List.append_assoc]
    have h1len : ([op] : List Nat).length = 1 := rfl
    have h53len : (([op] ++ (toB ++ beBytes 32 val)) : List Nat).length = 53 := by
      simp [beBytes_length, htoB]
    have h85len : ((([op] ++ (toB ++ beBytes 32 val)) ++ beBytes 32 payload.length) :
        List Nat).length = 85 := by
      simp [beBytes_length, htoB]
    have hd1 : ((msRecord op toB val payload ++ restBytes).drop 1).take 20 = toB := by
      rw [e1, List.drop_left' h1len, List.take_left' htoB]
    have hd53 : ((msRecord op toB val payload ++ restBytes).drop 53).take 32 =
        beBytes 32 payload.length := by
      rw [e2, List.drop_left' h53len, List.take_left' (beBytes_length 32 payload.length)]
    have hd85 : (msRecord op toB val payload ++ restBytes).drop 85 = payload ++ restBytes := by
      rw [e3]
      exact List.drop_left' h85len
    have hw1 : wrap64 ((payload.length : Nat) : Int) = ((payload.length : Nat) : Int) :=
      wrap64_eq_self _ (by omega) (by omega)
    have hw2 : wrap64 (((0 : Nat) : Int) + 85 + ((payload.length : Nat) : Int)) =
        (((85 + payload.length : Nat)) : Int) := by
      simp only [wrap64]
      omega
    simp only [msLoop, msLoopAux, Nat.zero_add]
    rw [hlen, hd1, hd53, hd85, natOfBE_beBytes,
      Nat.mod_eq_of_lt (Nat.lt_trans hp64n (by decide : (2 : Nat) ^ 63 < 256 ^ 32)),
      Nat.mod_eq_of_lt (Nat.lt_trans hp64n (by decide : (2 : Nat) ^ 63 < 2 ^ 64)),
      hw1, hw2,
      if_pos (show (0 : Nat) < 85 + payload.length + restBytes.length by omega),
      if_neg (show ¬(85 > 85 + payload.length + restBytes.length) by omega),
      if_neg (show ¬((((85 + payload.length : Nat)) : Int) >
        ((85 + payload.length + restBytes.length : Nat) : Int)) by omega),
      if_neg (show ¬((((85 + payload.length : Nat)) : Int) < (((85 : Nat)) : Int)) by omega),
      Int.toNat_ofNat,
      (show 85 + payload.length - 85 = payload.length from by omega),
      List.take_left, hMs]

/-- **C7** witness: the theorem applied to the concrete failing element
whose calldata is the registered `aggregate3` selector sent to the Safe
multisend address (the recursive decode returns the `unsupported
function` error). -/
theorem parseMulticall_element_failure_asymmetry_witness :
    (ParseTransactionData (addressHex msAddrMS) ("0x" ++ hexEncode [0x0c, 0xba, 0x7a, 0xdd])
        MainnetChainID ⟨false⟩ =
      .error (.err ("unsupported function " ++ Aggregate3Sig ++
        " for Safe Multisend contract"))) ∧
    msAddrMS.length = 20 ∧
    ([0x0c, 0xba, 0x7a, 0xdd] : List Nat).length + 85 < 2 ^ 63 ∧
    (ParseTransactionData (addressHex (bytesToAddress msAddrMS))
        ("0x" ++ hexEncode [0x0c, 0xba, 0x7a, 0xdd]) MainnetChainID ⟨false⟩ =
      .error (.err ("unsupported function " ++ Aggregate3Sig ++
        " for Safe Multisend contract"))) ∧
    (aggLoop (fun toA d => ParseTransactionData toA d MainnetChainID ⟨false⟩)
        (⟨msAddrMS, [0x0c, 0xba, 0x7a, 0xdd]⟩ :: []) =
      aggLoop (fun toA d => ParseTransactionData toA d MainnetChainID ⟨false⟩) [] ∧
     msLoop (fun toA d => ParseTransactionData toA d MainnetChainID ⟨false⟩)
        (msRecord 0 msAddrMS 0 [0x0c, 0xba, 0x7a, 0xdd] ++ []) =
      .error (.err ("unsupported function " ++ Aggregate3Sig ++
        " for Safe Multisend contract"))) :=
  ⟨rfl, by decide, by decide, rfl,
   parseMulticall_element_failure_asymmetry
     (fun toA d => ParseTransactionData toA d MainnetChainID ⟨false⟩)
     ⟨msAddrMS, [0x0c, 0xba, 0x7a, 0xdd]⟩ []
     ("unsupported function " ++ Aggregate3Sig ++ " for Safe Multisend contract")
     0 0 msAddrMS [0x0c, 0xba, 0x7a, 0xdd] []
     (.err ("unsupported function " ++ Aggregate3Sig ++ " for Safe Multisend contract"))
     rfl (by decide) (by decide) rfl⟩

/-- Character order transfers to code points. -/
lemma char_le_toNat {a b : Char} (h : a ≤ b) : a.toNat ≤ b.toNat :=
  BitVec.le_def.mp (UInt32.le_def.mp (Char.le_def.mp h))

/-- A decoded hex digit is below 16. -/
lemma hexDigitVal_lt (c : Char) (n : Nat) (h : hexDigitVal c = some n) : n < 16 := by
  simp only [hexDigitVal] at h
  split at h
  · rename_i hc
    injection h with h
    have h9 := char_le_toNat hc.2
    have e9 : Char.toNat '9' = 57 := rfl
    have e0 : Char.toNat '0' = 48 := rfl
    omega
  · split at h
    · rename_i hc
      injection h with h
      have hf := char_le_toNat hc.2
      have ef : Char.toNat 'f' = 102 := rfl
      have ea : Char.toNat 'a' = 97 := rfl
      omega
    · split at h
      · rename_i hc
        injection h with h
        have hf := char_le_toNat hc.2
        have ef : Char.toNat 'F' = 70 := rfl
        have ea : Char.toNat 'A' = 65 := rfl
        omega
      · exact absurd h (by simp)

/-- A successful strict hex decode consumes two characters per byte and
produces bytes below 256. -/
theorem hexPairsStrict_sound : ∀ (l : List Char) (bs : List Nat),
    hexPairsStrict l = some bs → l.length = 2 * bs.length ∧ ∀ b ∈ bs, b < 256
  | [], bs, h => by
    simp only [hexPairsStrict, Option.some.injEq] at h
    subst h
    exact ⟨rfl, fun b hb => absurd hb (List.not_mem_nil b)⟩
  | [c], bs, h => by
    simp only [hexPairsStrict] at h
    exact Option.noConfusion h
  | c1 :: c2 :: rest, bs, h => by
    simp only [hexPairsStrict] at h
    cases hv1 : hexDigitVal c1 with
    | none => rw [hv1] at h; simp at h
    | some hd =>
      cases hv2 : hexDigitVal c2 with
      | none => rw [hv1, hv2] at h; simp at h
      | some ld =>
        rw [hv1, hv2] at h
        dsimp only at h
        cases hrest : hexPairsStrict rest with
        | none => rw [hrest] at h; simp at h
        | some bs' =>
          rw [hrest] at h
          simp only [Option.map_some', Option.some.injEq] at h
          subst h
          obtain ⟨hl, hb⟩ := hexPairsStrict_sound rest bs' hrest
          refine ⟨?_, ?_⟩
          · simp only [List.length_cons, hl]
            omega
          · intro b hbm
            rcases List.mem_cons.mp hbm with rfl | hbm
            · have b1 := hexDigitVal_lt c1 hd hv1
              have b2 := hexDigitVal_lt c2 ld hv2
              omega
            · exact hb b hbm

/-- Trimming a prefix never lengthens a string. -/
lemma goTrimPrefix_length_le (s pre : String) : (goTrimPrefix s pre).length ≤ s.length := by
  simp only [goTrimPrefix]
  split
  · show (s.data.drop pre.data.length).length ≤ s.data.length
    rw [List.length_drop]
    omega
  · exact Nat.le_refl _

/-- `strings.TrimPrefix` on a string that carries the prefix. -/
lemma goTrimPrefix_append (pre s : String) : goTrimPrefix (pre ++ s) pre = s := by
  simp only [goTrimPrefix, strData_append]
  rw [if_pos (List.isPrefixOf_iff_prefix.mpr (List.prefix_append _ _)), List.drop_left]

/-- `strings.HasPrefix` on a string that carries the prefix. -/
lemma goHasPrefix_append (pre s : String) : goHasPrefix (pre ++ s) pre = true := by
  simp only [goHasPrefix, strData_append]
  exact List.isPrefixOf_iff_prefix.mpr (List.prefix_append _ _)

/-- Length of a `0x`-prefixed hex rendering. -/
lemma hexstr_length (bs : List Nat) : ("0x" ++ hexEncode bs).length = 2 * bs.length + 2 := by
  show (("0x" ++ hexEncode bs).data).length = 2 * bs.length + 2
  rw [strData_append, List.length_append, show ("0x" : String).data.length = 2 from rfl]
  show 2 + (hexChars bs).length = 2 * bs.length + 2
  rw [hexChars_length]
  omega

/-- The recursive multi-send subcall strings never out-length the
enclosing byte stream's rendering. -/
lemma hexstr_take_drop_le (l : List Nat) (a b : Nat) :
    ("0x" ++ hexEncode ((l.drop a).take b)).length ≤ 2 * l.length + 2 := by
  rw [hexstr_length]
  have h1 : ((l.drop a).take b).length ≤ (l.drop a).length := List.length_take_le' b (l.drop a)
  have h2 : (l.drop a).length ≤ l.length := by
    rw [List.length_drop]
    omega
  omega

/-- The multi-send record loop is insensitive to the recursive decoder
beyond its values on the subcall strings it actually produces, all of
which fit within the stream's own hex rendering. -/
lemma msLoopAux_congr (p1 p2 : String → String → Except GoErr CallData)
    (data : List Nat)
    (hp : ∀ to1 d1, d1.length ≤ 2 * data.length + 2 → p1 to1 d1 = p2 to1 d1) :
    ∀ (fuelN pos : Nat), msLoopAux p1 data fuelN pos = msLoopAux p2 data fuelN pos := by
  intro fuelN
  induction fuelN with
  | zero => intro pos; rfl
  | succ n ih =>
    intro pos
    simp only [msLoopAux]
    split
    · split
      · rfl
      · split
        · rfl
        · split
          · rfl
          · rw [hp]
            · split
              · rfl
              · rw [ih]
            · exact hexstr_take_drop_le data _ _
    · rfl

/-- `parseMulticall` is likewise insensitive to the recursive decoder when
the argument map is the decoded `multiSend` transactions blob. -/
lemma parseMulticallGen_congr (p1 p2 : String → String → Except GoErr CallData)
    (addr : String) (fi : FunctionInfo) (payload : List Nat)
    (h256 : ∀ b ∈ payload, b < 256)
    (hp : ∀ to1 d1, d1.length ≤ 2 * payload.length + 2 → p1 to1 d1 = p2 to1 d1) :
    parseMulticallGen p1 addr fi
        [("transactions", AbiVal.vstr ("0x" ++ hexEncode payload))] =
      parseMulticallGen p2 addr fi
        [("transactions", AbiVal.vstr ("0x" ++ hexEncode payload))] := by
  simp only [parseMulticallGen]
  split
  · split
    · rw [show lookupMap [("transactions", AbiVal.vstr ("0x" ++ hexEncode payload))]
          "transactions" = some (AbiVal.vstr ("0x" ++ hexEncode payload)) from rfl]
      dsimp only
      rw [goHasPrefix_append, if_neg (show ¬¬(true = true) from fun hc => hc rfl),
        goTrimPrefix_append, hexDecodeStrict_hexEncode payload h256]
      dsimp only
      exact msLoopAux_congr p1 p2 payload hp _ 0
    · rfl
  · split
    · split
      · rw [show lookupMap [("transactions", AbiVal.vstr ("0x" ++ hexEncode payload))]
            "calls" = none from rfl]
      · split
        · rw [show lookupMap [("transactions", AbiVal.vstr ("0x" ++ hexEncode payload))]
              "calls" = none from rfl]
        · rfl
    · rfl

/-- `parseMulticall` never consults the recursive decoder when the
argument map is empty. -/
lemma parseMulticallGen_nil_congr (p1 p2 : String → String → Except GoErr CallData)
    (addr : String) (fi : FunctionInfo) :
    parseMulticallGen p1 addr fi [] = parseMulticallGen p2 addr fi [] := by
  simp only [parseMulticallGen]
  split
  · split
    · rw [show lookupMap ([] : List (String × AbiVal)) "transactions" = none from rfl]
    · rfl
  · split
    · split
      · rw [show lookupMap ([] : List (String × AbiVal)) "calls" = none from rfl]
      · split
        · rw [show lookupMap ([] : List (String × AbiVal)) "calls" = none from rfl]
        · rfl
    · rfl

/-- For a method with no inputs, a successful `parseArguments` yields the
empty argument map. -/
lemma parseArguments_nullary (m : AbiMethod) (cd : String)
    (args : List (String × AbiVal)) (hin : m.inputs = [])
    (h : parseArguments m cd = some args) : args = [] := by
  simp only [parseArguments, Option.bind_eq_bind] at h
  cases hdec : hexDecodeStrict (goTrimPrefix cd "0x") with
  | none => rw [hdec] at h; exact absurd h (by simp)
  | some bytes =>
    rw [hdec, Option.some_bind] at h
    by_cases hlen : bytes.length < 4
    · rw [if_pos hlen] at h; exact absurd h (by simp)
    · rw [if_neg hlen] at h
      cases hup : unpackArgs m.inputs (bytes.drop 4) with
      | none => rw [hup] at h; exact absurd h (by simp)
      | some args0 =>
        rw [hup, Option.some_bind] at h
        injection h with h
        subst h
        rw [hin] at hup
        simp only [unpackArgs] at hup
        split at hup
        · split at hup
          · injection hup with hup
            subst hup
            rfl
          · rename_i hx
            simp at hx
        · simp only [List.enum_nil, List.mapM_nil, Option.pure_def,
            Option.some.injEq] at hup
          subst hup
          rfl

/-- For the `multiSend(bytes transactions)` method a successful
`parseArguments` yields exactly one `transactions` entry, the hex
rendering of a payload whose bytes are genuine and whose doubled length
is well below the calldata's. -/
lemma parseArguments_multiSend_shape (m : AbiMethod) (cd : String)
    (args : List (String × AbiVal))
    (hin : m.inputs = [("transactions", AbiType.bytes)])
    (h : parseArguments m cd = some args) :
    ∃ payload : List Nat,
      args = [("transactions", AbiVal.vstr ("0x" ++ hexEncode payload))] ∧
      (∀ b ∈ payload, b < 256) ∧
      2 * payload.length + 72 ≤ (goTrimPrefix cd "0x").length := by
  simp only [parseArguments, Option.bind_eq_bind] at h
  cases hdec : hexDecodeStrict (goTrimPrefix cd "0x") with
  | none => rw [hdec] at h; exact absurd h (by simp)
  | some bytes =>
    rw [hdec, Option.some_bind] at h
    by_cases hlen : bytes.length < 4
    · rw [if_pos hlen] at h; exact absurd h (by simp)
    · rw [if_neg hlen] at h
      cases hup : unpackArgs m.inputs (bytes.drop 4) with
      | none => rw [hup] at h; exact absurd h (by simp)
      | some args0 =>
        rw [hup, Option.some_bind] at h
        injection h with h
        subst h
        have hsound := hexPairsStrict_sound _ bytes hdec
        rw [hin] at hup
        simp only [unpackArgs] at hup
        split at hup
        · split at hup
          · rename_i hx
            simp at hx
          · exact absurd hup (by simp)
        · rw [show ([("transactions", AbiType.bytes)] :
              List (String × AbiType)).enum = [(0, ("transactions", AbiType.bytes))]
              from rfl, ← List.mapM'_eq_mapM] at hup
          simp only [List.mapM', Option.bind_eq_bind] at hup
          cases hv : toGoType AbiType.bytes (bytes.drop 4) (0 * 32) with
          | none => rw [hv] at hup; simp at hup
          | some v =>
            rw [hv] at hup
            simp only [Option.map_some', Option.some_bind, Option.pure_def,
              Option.some.injEq] at hup
            subst hup
            have hv' : toGoTypeBase AbiType.bytes (bytes.drop 4) 0 = some v := hv
            simp only [toGoTypeBase] at hv'
            split at hv'
            · exact absurd hv' (by simp)
            · cases hlp : lengthPrefixPointsTo 0 (bytes.drop 4) with
              | none => rw [hlp] at hv'; simp at hv'
              | some pq =>
                rw [hlp] at hv'
                simp only [Option.map_some', Option.some.injEq] at hv'
                subst hv'
                simp only [lengthPrefixPointsTo] at hlp
                split at hlp
                · exact absurd hlp (by simp)
                · split at hlp
                  · exact absurd hlp (by simp)
                  · rename_i hh1 hh2
                    injection hlp with hlp
                    subst hlp
                    refine ⟨((bytes.drop 4).drop
                        (natOfBE (wordAt (bytes.drop 4) 0) + 32)).take
                        (natOfBE (wordAt (bytes.drop 4)
                          (natOfBE (wordAt (bytes.drop 4) 0)))), ?_, ?_, ?_⟩
                    · simp [convertTopArg]
                    · intro b hb
                      exact hsound.2 b
                        (List.mem_of_mem_drop (List.mem_of_mem_drop
                          (List.mem_of_mem_take hb)))
                    · have hslen : (goTrimPrefix cd "0x").length = 2 * bytes.length :=
                        hsound.1
                      have hdl : (bytes.drop 4).length = bytes.length - 4 :=
                        List.length_drop 4 bytes
                      have hpl1 := List.length_take_le'
                        (natOfBE (wordAt (bytes.drop 4)
                          (natOfBE (wordAt (bytes.drop 4) 0))))
                        ((bytes.drop 4).drop (natOfBE (wordAt (bytes.drop 4) 0) + 32))
                      have hpl2 : ((bytes.drop 4).drop
                          (natOfBE (wordAt (bytes.drop 4) 0) + 32)).length =
                          (bytes.drop 4).length -
                            (natOfBE (wordAt (bytes.drop 4) 0) + 32) :=
                        List.length_drop _ _
                      omega

/-- A non-token function name leaves the argument map untouched. -/
lemma adjustTokenAmount_nontoken (ci? : Option ContractInfo) (name : String)
    (args : List (String × AbiVal)) (h : TokenFunctions.contains name = false) :
    adjustTokenAmount ci? name args = .ok args := by
  cases ci? with
  | none => rfl
  | some ci =>
    simp only [adjustTokenAmount]
    have hneg : ¬(TokenFunctions.contains name = true ∧ ci.Decimals > 0) := by
      intro hc
      rw [h] at hc
      exact absurd hc.1 (by decide)
    rw [if_neg hneg]

/-- The amount adjustment is trivial on the empty argument map. -/
lemma adjustTokenAmount_nil (ci? : Option ContractInfo) (name : String) :
    adjustTokenAmount ci? name [] = .ok [] := by
  cases ci? with
  | none => rfl
  | some ci =>
    simp only [adjustTokenAmount]
    split
    · rfl
    · rfl

/-- Every registered batching function either carries the single
`transactions : bytes` input (`multiSend`) or no inputs at all (the
aggregate entries, whose parenthesised parameter lists defeat
`getInputsJSON`). -/
lemma registry_multicall_inputs :
    ∀ fi ∈ KnownFunctions.map (fun p => p.2),
      ((fi.Name == "multiSend") = true ∨ (fi.Name == "aggregate3") = true ∨
        (fi.Name == "aggregate3Value") = true) →
      fi.ABI.inputs = [("transactions", AbiType.bytes)] ∨ fi.ABI.inputs = [] := by
  decide

/-- No registered batching function is a token function. -/
lemma registry_multicall_nontoken :
    ∀ fi ∈ KnownFunctions.map (fun p => p.2),
      ((fi.Name == "multiSend") = true ∨ (fi.Name == "aggregate3") = true ∨
        (fi.Name == "aggregate3Value") = true) →
      TokenFunctions.contains fi.Name = false := by
  decide

/-- Any two sufficient recursion budgets give `ParseTransactionDataF` the
same value: the only reachable recursive calls are the multi-send
subcalls, whose calldata strings are strictly shorter than the parent's. -/
lemma ParseTransactionDataF_agree :
    ∀ (n f1 f2 : Nat) (toA data : String) (chainID : Nat) (options : VerifyOptions),
      data.length ≤ n → data.length < f1 → data.length < f2 →
      ParseTransactionDataF f1 toA data chainID options =
        ParseTransactionDataF f2 toA data chainID options := by
  intro n
  induction n using Nat.strong_induction_on with
  | _ n ih =>
    intro f1 f2 toA data chainID options hn h1 h2
    cases f1 with
    | zero => omega
    | succ g1 =>
      cases f2 with
      | zero => omega
      | succ g2 =>
        simp only [ParseTransactionDataF]
        by_cases h0 : (goTrimPrefix data "0x").length = 0
        · rw [if_pos h0, if_pos h0]
        · rw [if_neg h0, if_neg h0]
          by_cases h8 : (goTrimPrefix data "0x").length < 8
          · rw [if_pos h8, if_pos h8]
          · rw [if_neg h8, if_neg h8]
            cases hsel : lookupMap KnownFunctions
                ⟨(goTrimPrefix data "0x").data.take 8⟩ with
            | none => rfl
            | some fi =>
              dsimp only
              cases hargs : parseArguments fi.ABI ("0x" ++ goTrimPrefix data "0x") with
              | none => rfl
              | some args =>
                dsimp only
                have hfi : fi ∈ KnownFunctions.map (fun p => p.2) :=
                  List.mem_map.mpr ⟨_, lookupMap_mem _ _ _ hsel, rfl⟩
                by_cases hname : (fi.Name == "multiSend") = true ∨
                    (fi.Name == "aggregate3") = true ∨
                    (fi.Name == "aggregate3Value") = true
                · have hnt := registry_multicall_nontoken fi hfi hname
                  rcases registry_multicall_inputs fi hfi hname with hin | hin
                  · obtain ⟨payload, hargs_eq, h256, hbound⟩ :=
                      parseArguments_multiSend_shape fi.ABI _ args hin hargs
                    subst hargs_eq
                    rw [goTrimPrefix_append] at hbound
                    have hcl : (goTrimPrefix data "0x").length ≤ data.length :=
                      goTrimPrefix_length_le data "0x"
                    rw [adjustTokenAmount_nontoken
                      (GetKnownContract (goToLower toA) chainID) fi.Name _ hnt]
                    dsimp only
                    split
                    · rw [show annotateKnownAddresses chainID
                          [("transactions", AbiVal.vstr ("0x" ++ hexEncode payload))] =
                          [("transactions", AbiVal.vstr ("0x" ++ hexEncode payload))]
                          from rfl]
                      rw [parseMulticallGen_congr
                        (fun to1 data1 =>
                          ParseTransactionDataF g1 to1 data1 chainID options)
                        (fun to1 data1 =>
                          ParseTransactionDataF g2 to1 data1 chainID options)
                        (goToLower toA) fi payload h256
                        (fun to1 d1 hd1 => ih d1.length (by omega) g1 g2 to1 d1
                          chainID options (Nat.le_refl _) (by omega) (by omega))]
                    · rfl
                  · have hae := parseArguments_nullary fi.ABI _ args hin hargs
                    subst hae
                    rw [adjustTokenAmount_nil
                      (GetKnownContract (goToLower toA) chainID) fi.Name]
                    dsimp only
                    split
                    · rw [show annotateKnownAddresses chainID
                          ([] : List (String × AbiVal)) = [] from rfl]
                      rw [parseMulticallGen_nil_congr
                        (fun to1 data1 =>
                          ParseTransactionDataF g1 to1 data1 chainID options)
                        (fun to1 data1 =>
                          ParseTransactionDataF g2 to1 data1 chainID options)
                        (goToLower toA) fi]
                    · rfl
                · cases hadj : adjustTokenAmount
                      (GetKnownContract (goToLower toA) chainID) fi.Name args with
                  | error e => rfl
                  | ok args2 =>
                    dsimp only
                    split
                    · rename_i hmc
                      exact absurd hmc.2 hname
                    · rfl

/-- **C10.** `ParseTransactionData` terminates on every input: the fuel
embedding of the recursion is independent of the budget as soon as it
exceeds the calldata length, because every reachable recursive subcall —
a multi-send record's rendered data — is a strictly shorter string than
its parent's calldata (the aggregate elements' recursion is unreachable:
their registry entries are nullary, so the `calls` lookup fails first). -/
theorem parseTransactionData_terminates (fuel : Nat) (toA data : String)
    (chainID : Nat) (options : VerifyOptions) (hfuel : data.length < fuel) :
    ParseTransactionDataF fuel toA data chainID options =
      ParseTransactionData toA data chainID options :=
  ParseTransactionDataF_agree data.length fuel (data.length + 1) toA data chainID options
    (Nat.le_refl _) hfuel (Nat.lt_succ_self _)

/-- **C10** witness: a large budget agrees with the canonical one on a
concrete multi-send calldata that actually recurses. -/
theorem parseTransactionData_terminates_witness :
    (msCalldata (msRecord 0 msAddr1 0 [] ++ msRecord 0 msAddr2 0 [0xde, 0xad])).length
      < 1000 ∧
    ParseTransactionDataF 1000 SafeMultisendAddress
        (msCalldata (msRecord 0 msAddr1 0 [] ++ msRecord 0 msAddr2 0 [0xde, 0xad]))
        MainnetChainID ⟨false⟩ =
      ParseTransactionData SafeMultisendAddress
        (msCalldata (msRecord 0 msAddr1 0 [] ++ msRecord 0 msAddr2 0 [0xde, 0xad]))
        MainnetChainID ⟨false⟩ :=
  ⟨by decide,
   parseTransactionData_terminates 1000 SafeMultisendAddress
     (msCalldata (msRecord 0 msAddr1 0 [] ++ msRecord 0 msAddr2 0 [0xde, 0xad]))
     MainnetChainID ⟨false⟩ (by decide)⟩

end OpTxVerify

